import Mathlib

/-!
# A leveled logger: `logs.go` of lcvvvv/logs

A shallow embedding of the Go package `logs` and theorems about its
rendering and dispatch pipeline.

* Go strings (valid UTF-8) are lists of their characters.
* `Level` is Go's `type Level int`, an integer.
* A Go `map[Level]string` is a lookup function into `Option`.
* The calls into Go's standard library (`strconv.Itoa`, `fmt.Sprintf`,
  `fmt.Sprintln`, `fmt.Fprint`, `strings.Replace`, `time.Format`) are
  embedded as far as the logger exercises them; what lies outside that
  fragment of `fmt` is delegated to a parameter, so that every theorem
  holds whatever the library does there.
* Effects are explicit: every method maps a logger and a world to a
  logger and a world, the world recording each sink write and each
  observer call in order.
-/

namespace Logs

/-! ## Data model -/

/-- Go `string`, as the list of its characters. -/
abbrev GoString := List Char

/-- Go `type Level int`. -/
abbrev Level := Int

/-- Go `map[Level]string`: a lookup that may miss (also the nil map, which misses everywhere). -/
abbrev LevelMap := Level → Option GoString

/-- The constant `Debug Level = iota`. -/
def Debug : Level := 0

/-- The constant `Warn`, second in the `iota` block. -/
def Warn : Level := 1

/-- The constant `Info`, third in the `iota` block. -/
def Info : Level := 2

/-- The constant `Error`, fourth in the `iota` block. -/
def Error : Level := 3

/-- The literal token that the suffix decorator replaces. -/
def suffixToken : GoString := "\x7b\x7bsuffix\x7d\x7d".toList

/-- The literal token that the leading decorator (`PrefixFunc`) replaces. -/
def prefixToken : GoString := "\x7b\x7bprefix\x7d\x7d".toList

/-- The package variable `DefaultFormatterMap`. -/
def DefaultFormatterMap : LevelMap := fun l =>
  if l = Debug then some "[dbg] %s \n".toList
  else if l = Warn then some "[wrn] %s \n".toList
  else if l = Info then some "[inf] %s \x7b\x7bsuffix\x7d\x7d\n".toList
  else if l = Error then some "[err] %s \x7b\x7bsuffix\x7d\x7d\n".toList
  else none

/-- The package variable `Levels`. -/
def Levels : LevelMap := fun l =>
  if l = Debug then some "dbg".toList
  else if l = Warn then some "wrn".toList
  else if l = Info then some "inf".toList
  else if l = Error then some "err".toList
  else none

/-! ## The standard library, as far as the logger uses it -/

/-- Go `strconv.Itoa`: the decimal digits of an integer, with a leading `-` when negative. -/
def Itoa (n : Int) : GoString :=
  match n with
  | Int.ofNat m => Nat.toDigits 10 m
  | Int.negSucc m => '-' :: Nat.toDigits 10 (m + 1)

/-- A value passed as `interface{}`: a Go `string` or a Go `int`. -/
inductive GoValue where
  | str (s : GoString)
  | int (n : Int)
  deriving DecidableEq

/-- What `reflect.TypeOf(v).String()` prints for the operand. -/
def GoValue.typeName : GoValue → GoString
  | .str _ => "string".toList
  | .int _ => "int".toList

/-- The operand under the verb `%v`. -/
def GoValue.print : GoValue → GoString
  | .str s => s
  | .int n => Itoa n

/-- The `fmt` report for a verb that does not fit its operand: `%!verb(type=value)`. -/
def badVerb (verb : Char) (v : GoValue) : GoString :=
  "%!".toList ++ [verb] ++ "(".toList ++ v.typeName ++ "=".toList ++ v.print ++ ")".toList

/-- The `fmt` routine `printArg` for the verbs `s`, `v` and `d`. -/
def printArg (v : GoValue) (verb : Char) : GoString :=
  match v with
  | .str s => if verb = 's' ∨ verb = 'v' then s else badVerb verb v
  | .int n => if verb = 'd' ∨ verb = 'v' then Itoa n else badVerb verb v

/-- The `fmt` report for a verb with no operand left: `%!verb(MISSING)`. -/
def missingArg (verb : Char) : GoString :=
  "%!".toList ++ [verb] ++ "(MISSING)".toList

/-- The tail `%!(EXTRA type=value, ...)` that `doPrintf` appends when operands are left over. -/
def extraArgs (a : List GoValue) (argNum : Nat) : GoString :=
  if argNum < a.length then
    "%!(EXTRA ".toList
      ++ List.intercalate ", ".toList
          ((a.drop argNum).map fun v => v.typeName ++ "=".toList ++ v.print)
      ++ ")".toList
  else []

/-- Whatever `fmt` does from a directive outside the embedded fragment onwards: it receives
the operands, the rest of the format (starting at its `%`) and the operand counter, and
returns the rest of the output. -/
abbrev FmtExt := List GoValue → GoString → Nat → GoString

/-- The `fmt` loop `doPrintf`. Plain text is copied; `%%` prints `%`; a `%` that ends the
format prints `%!(NOVERB)`; the verbs `%s`, `%v`, `%d` print the next operand or the
missing-operand report; leftover operands are reported at the end. Every other directive
(flags, width, precision, operand index, other verbs) is handed to `ext`. -/
def doPrintf (ext : FmtExt) (a : List GoValue) : GoString → Nat → GoString
  | [], argNum => extraArgs a argNum
  | c :: rest, argNum =>
    if c ≠ '%' then c :: doPrintf ext a rest argNum
    else
      match rest with
      | [] => "%!(NOVERB)".toList ++ extraArgs a argNum
      | verb :: rest' =>
        if verb = '%' then '%' :: doPrintf ext a rest' argNum
        else if verb = 's' ∨ verb = 'v' ∨ verb = 'd' then
          match a.get? argNum with
          | some v => printArg v verb ++ doPrintf ext a rest' (argNum + 1)
          | none => missingArg verb ++ doPrintf ext a rest' argNum
        else ext a (c :: verb :: rest') argNum

/-- Go `fmt.Sprintf(format, a...)`. -/
def Sprintf (ext : FmtExt) (format : GoString) (a : List GoValue) : GoString :=
  doPrintf ext a format 0

/-- Go `fmt.Sprintln(a...)`: the operands under `%v`, separated by single spaces, then a newline. -/
def Sprintln (a : List GoValue) : GoString :=
  List.intercalate " ".toList (a.map GoValue.print) ++ "\n".toList

/-- The scan behind `strings.Replace` for a non-empty `old`: left to right, each match of
`old` is replaced by `new` and skipped over (`skip` counts the characters of a match still
to be passed), so matches do not overlap and replaced text is not scanned again. -/
def replaceLoop (old new : GoString) : Nat → GoString → GoString
  | _, [] => []
  | skip + 1, _ :: cs => replaceLoop old new skip cs
  | 0, c :: cs =>
    if old.isPrefixOf (c :: cs) then new ++ replaceLoop old new (old.length - 1) cs
    else c :: replaceLoop old new 0 cs

/-- Go `strings.Replace(s, old, new, -1)`. An empty `old` matches before every character
and at the end. -/
def Replace (s old new : GoString) : GoString :=
  if old = [] then new ++ s.flatMap (fun c => c :: new)
  else replaceLoop old new 0 s

/-- A wall-clock reading, as `time.Now()` returns it in local time. -/
structure Time where
  year : Nat
  month : Nat
  day : Nat
  hour : Nat
  minute : Nat
  second : Nat

/-- Decimal digits of `n`, padded with zeros on the left to `width` characters. -/
def zeroPad (width n : Nat) : GoString :=
  let ds := Nat.toDigits 10 n
  List.replicate (width - ds.length) '0' ++ ds

/-- The function `getCurtime`: the clock under the layout `2006-01-02 15:04.05`. -/
def getCurtime (now : Time) : GoString :=
  zeroPad 4 now.year ++ "-".toList ++ zeroPad 2 now.month ++ "-".toList ++ zeroPad 2 now.day
    ++ " ".toList ++ zeroPad 2 now.hour ++ ":".toList ++ zeroPad 2 now.minute
    ++ ".".toList ++ zeroPad 2 now.second

/-! ## Levels -/

/-- The method `Level.Name`. -/
def Level.Name (l : Level) : GoString :=
  match Levels l with
  | some name => name
  | none => Itoa l

/-- The method `Level.Formatter`. -/
def Level.Formatter (l : Level) : GoString :=
  match DefaultFormatterMap l with
  | some formatter => formatter
  | none => "[".toList ++ Level.Name l ++ "] %s".toList

/-! ## The logger and its world -/

/-- An `io.Writer`, by identity. -/
abbrev Writer := Nat

/-- The writer `os.Stdout`. -/
def Stdout : Writer := 0

/-- An observer callback `func(level Level, s interface{})`, by identity. -/
abbrev Observer := Nat

/-- A decorator `func() string`: its text may depend on the clock at the call. -/
abbrev Decorator := Time → GoString

/-- The struct `Logger`. -/
structure Logger where
  Quiet : Bool
  onLogger : Option Observer
  writer : Writer
  level : Level
  levels : LevelMap
  formatter : LevelMap
  SuffixFunc : Decorator
  PrefixFunc : Decorator

/-- What a logging call does to the outside. -/
inductive Event where
  | write (w : Writer) (p : GoString)
  | observe (f : Observer) (level : Level) (line : GoString)
  deriving DecidableEq

/-- The outside of the logger: the clock, the writers whose `Write` fails, and the effects
so far, oldest first. -/
structure World where
  now : Time
  broken : Writer → Bool
  trace : List Event

/-- Go `fmt.Fprint(w, line)` for one string operand: a single `Write` of the string; the
result is the world after the call and whether `Write` returned an error. -/
def Fprint (w : Writer) (line : GoString) (σ : World) : World × Bool :=
  ({ σ with trace := σ.trace ++ [Event.write w line] }, σ.broken w)

/-- A call of the observer `f` with `(level, line)`. -/
def callObserver (f : Observer) (level : Level) (line : GoString) (σ : World) : World :=
  { σ with trace := σ.trace ++ [Event.observe f level line] }

/-- The function `NewLogger`. -/
def NewLogger (level : Level) : Logger :=
  { Quiet := false
    onLogger := none
    level := level
    writer := Stdout
    levels := Levels
    formatter := DefaultFormatterMap
    SuffixFunc := fun now => ", ".toList ++ getCurtime now
    PrefixFunc := fun _ => [] }

/-- The package variable `Log`. -/
def Log : Logger := NewLogger Warn

/-- The method `Logger.SetQuiet`. -/
def Logger.SetQuiet (log : Logger) (q : Bool) (σ : World) : Logger × World :=
  ({ log with Quiet := q }, σ)

/-- The method `Logger.SetLevel`. -/
def Logger.SetLevel (log : Logger) (l : Level) (σ : World) : Logger × World :=
  ({ log with level := l }, σ)

/-- The method `Logger.SetOutput`. -/
def Logger.SetOutput (log : Logger) (w : Writer) (σ : World) : Logger × World :=
  ({ log with writer := w }, σ)

/-- The method `Logger.SetFormatter`. -/
def Logger.SetFormatter (log : Logger) (formatter : LevelMap) (σ : World) : Logger × World :=
  ({ log with formatter := formatter }, σ)

/-- The method `Logger.Format`, with the variadic payload as a list. -/
def Logger.Format (ext : FmtExt) (log : Logger) (now : Time) (level : Level)
    (s : List GoValue) : GoString :=
  let line :=
    match log.formatter level with
    | some f => Sprintf ext f s
    | none =>
      match DefaultFormatterMap level with
      | some f => Sprintf ext f s
      | none => Sprintf ext "[%s] %s ".toList (GoValue.str (Level.Name level) :: s)
  let line := Replace line suffixToken (log.SuffixFunc now)
  let line := Replace line prefixToken (log.PrefixFunc now)
  line

/-- The method `Logger.logInterface`. -/
def Logger.logInterface (ext : FmtExt) (log : Logger) (w : Writer) (level : Level)
    (s : GoValue) (σ : World) : Logger × World :=
  if log.Quiet then (log, σ)
  else if level < log.level then (log, σ)
  else
    let line := Logger.Format ext log σ.now level [s]
    let σ := (Fprint w line σ).1
    match log.onLogger with
    | some f => (log, callObserver f level line σ)
    | none => (log, σ)

/-- The method `Logger.logInterfacef`. -/
def Logger.logInterfacef (ext : FmtExt) (log : Logger) (w : Writer) (level : Level)
    (format : GoString) (s : List GoValue) (σ : World) : Logger × World :=
  Logger.logInterface ext log w level (GoValue.str (Sprintf ext format s)) σ

/-- The method `Logger.Print`. -/
def Logger.Print (ext : FmtExt) (log : Logger) (level : Level) (s : GoValue) (σ : World) :
    Logger × World :=
  Logger.logInterface ext log log.writer level s σ

/-- The method `Logger.Printf`. -/
def Logger.Printf (ext : FmtExt) (log : Logger) (level : Level) (format : GoString)
    (s : List GoValue) (σ : World) : Logger × World :=
  Logger.logInterfacef ext log log.writer level format s σ

/-- The method `Logger.Println`. -/
def Logger.Println (ext : FmtExt) (log : Logger) (writer : Writer) (level : Level)
    (s : List GoValue) (σ : World) : Logger × World :=
  Logger.logInterface ext log writer level (GoValue.str (Sprintln s)) σ

/-- The method `Logger.Info`. -/
def Logger.Info (ext : FmtExt) (log : Logger) (s : GoValue) (σ : World) : Logger × World :=
  Logger.logInterface ext log log.writer Logs.Info s σ

/-- The method `Logger.Infof`. -/
def Logger.Infof (ext : FmtExt) (log : Logger) (format : GoString) (s : List GoValue)
    (σ : World) : Logger × World :=
  Logger.logInterfacef ext log log.writer Logs.Info format s σ

/-- The method `Logger.FInfof`. -/
def Logger.FInfof (ext : FmtExt) (log : Logger) (writer : Writer) (format : GoString)
    (s : List GoValue) (σ : World) : Logger × World :=
  Logger.logInterfacef ext log writer Logs.Info format s σ

/-- The method `Logger.Error`. -/
def Logger.Error (ext : FmtExt) (log : Logger) (s : GoValue) (σ : World) : Logger × World :=
  Logger.logInterface ext log log.writer Logs.Error s σ

/-- The method `Logger.Errorf`. -/
def Logger.Errorf (ext : FmtExt) (log : Logger) (format : GoString) (s : List GoValue)
    (σ : World) : Logger × World :=
  Logger.logInterfacef ext log log.writer Logs.Error format s σ

/-- The method `Logger.FErrorf`. -/
def Logger.FErrorf (ext : FmtExt) (log : Logger) (writer : Writer) (format : GoString)
    (s : List GoValue) (σ : World) : Logger × World :=
  Logger.logInterfacef ext log writer Logs.Error format s σ

/-- The method `Logger.Warn`. -/
def Logger.Warn (ext : FmtExt) (log : Logger) (s : GoValue) (σ : World) : Logger × World :=
  Logger.logInterface ext log log.writer Logs.Warn s σ

/-- The method `Logger.Warnf`. -/
def Logger.Warnf (ext : FmtExt) (log : Logger) (format : GoString) (s : List GoValue)
    (σ : World) : Logger × World :=
  Logger.logInterfacef ext log log.writer Logs.Warn format s σ

/-- The method `Logger.FWarnf`. -/
def Logger.FWarnf (ext : FmtExt) (log : Logger) (writer : Writer) (format : GoString)
    (s : List GoValue) (σ : World) : Logger × World :=
  Logger.logInterfacef ext log writer Logs.Warn format s σ

/-- The method `Logger.Debug`. -/
def Logger.Debug (ext : FmtExt) (log : Logger) (s : GoValue) (σ : World) : Logger × World :=
  Logger.logInterface ext log log.writer Logs.Debug s σ

/-- The method `Logger.Debugf`. -/
def Logger.Debugf (ext : FmtExt) (log : Logger) (format : GoString) (s : List GoValue)
    (σ : World) : Logger × World :=
  Logger.logInterfacef ext log log.writer Logs.Debug format s σ

/-- The method `Logger.FDebugf`. -/
def Logger.FDebugf (ext : FmtExt) (log : Logger) (writer : Writer) (format : GoString)
    (s : List GoValue) (σ : World) : Logger × World :=
  Logger.logInterfacef ext log writer Logs.Debug format s σ

/-! ## Reading the rendering rule -/

/-- The template that the fallback chain of the rendering rule names for a level: the
entry of the logger's table, else the entry of the built-in table, else
`[<name>] %s ` with a trailing space. -/
def selectTemplate (table : LevelMap) (level : Level) : GoString :=
  match table level with
  | some f => f
  | none =>
    match DefaultFormatterMap level with
    | some f => f
    | none => "[".toList ++ Level.Name level ++ "] %s ".toList

/-- One simultaneous pass over a line in which each occurrence of either decorator token
is replaced by the text of its decorator and the spliced text is not looked at again:
the reading of the substitution under which decorator output is never expanded. -/
def spliceTokens (sfx pfx : GoString) : Nat → GoString → GoString
  | _, [] => []
  | skip + 1, _ :: cs => spliceTokens sfx pfx skip cs
  | 0, c :: cs =>
    if suffixToken.isPrefixOf (c :: cs) then
      sfx ++ spliceTokens sfx pfx (suffixToken.length - 1) cs
    else if prefixToken.isPrefixOf (c :: cs) then
      pfx ++ spliceTokens sfx pfx (prefixToken.length - 1) cs
    else c :: spliceTokens sfx pfx 0 cs

/-- The events of one emission that passes the filter: the write of the line to the sink,
then the call of the observer when one is installed. -/
def emitted (log : Logger) (w : Writer) (level : Level) (line : GoString) : List Event :=
  Event.write w line ::
    (match log.onLogger with
     | some f => [Event.observe f level line]
     | none => [])

/-- The world once `events` have happened, in that order. -/
def World.after (σ : World) (events : List Event) : World :=
  { σ with trace := σ.trace ++ events }

/-- Text without `%` and without braces. -/
def plain (s : GoString) : Bool :=
  s.all fun c => c != '%' && c != '{' && c != '}'

/-- A decorator token opens with `{` and closes with `}`. -/
def IsToken (old : GoString) : Prop :=
  ∃ mid : GoString, old = '{' :: mid ∧ ∃ init : GoString, old = init ++ ['}']

/-- The ten decimal digit characters. -/
def digitChars : GoString := "0123456789".toList

/-- The number that a string of decimal digits denotes. -/
def digitsValue (s : GoString) : Nat :=
  s.foldl (fun acc c => 10 * acc + (c.toNat - '0'.toNat)) 0

/-- The integer that a decimal numeral with an optional leading `-` denotes. -/
def decimalValue : GoString → Int
  | '-' :: ds => - (digitsValue ds : Int)
  | ds => (digitsValue ds : Int)

/-! ## Concrete loggers and worlds -/

/-- An extension that prints nothing; the formats of the examples never reach it. -/
def noExt : FmtExt := fun _ _ _ => []

/-- The ninth of March 2024, 07:05:01. -/
def clock0 : Time := ⟨2024, 3, 9, 7, 5, 1⟩

/-- A world in which nothing has happened yet and no writer fails. -/
def world0 : World := ⟨clock0, fun _ => false, []⟩

/-- A table with the single entry `level ↦ template`. -/
def singleTemplate (level : Level) (template : GoString) : LevelMap := fun l =>
  if l = level then some template else none

/-- A logger with a custom template for `Warn` that uses both tokens, and decorators
returning `P` and `S`. -/
def bracketLogger : Logger :=
  { NewLogger Warn with
    formatter := singleTemplate Warn
      "<<\x7b\x7bprefix\x7d\x7d|%s|\x7b\x7bsuffix\x7d\x7d>>".toList
    PrefixFunc := fun _ => "P".toList
    SuffixFunc := fun _ => "S".toList }

/-- A logger whose `Warn` template has no payload slot. -/
def slotlessLogger : Logger :=
  { NewLogger Warn with formatter := singleTemplate Warn "quiet".toList }

/-- A logger whose suffix decorator returns the other decorator's token. -/
def nestedLogger : Logger :=
  { NewLogger Warn with
    formatter := singleTemplate Warn "%s\x7b\x7bsuffix\x7d\x7d".toList
    PrefixFunc := fun _ => "P".toList
    SuffixFunc := fun _ => prefixToken }

/-- A logger whose `Warn` template ends in the leading token and whose decorators both
return text that contains tokens. -/
def echoLogger : Logger :=
  { NewLogger Warn with
    formatter := singleTemplate Warn "<%s|\x7b\x7bprefix\x7d\x7d>".toList
    PrefixFunc := fun _ => suffixToken ++ prefixToken
    SuffixFunc := fun _ => prefixToken }

/-! ## Further readings and examples -/

/-- The method `Logger.Format` as a step on the logger and the world: its body assigns no
field of the logger and calls neither a writer nor the observer, so the step returns the
line together with the logger and the world it was given. -/
def Logger.FormatCall (ext : FmtExt) (log : Logger) (level : Level) (s : List GoValue)
    (σ : World) : GoString × Logger × World :=
  (Logger.Format ext log σ.now level s, log, σ)

/-- Segments joined by a separator: `joinWith sep [a, b, c] = a ++ sep ++ b ++ sep ++ c`. -/
def joinWith (sep : GoString) : List GoString → GoString
  | [] => []
  | [s] => s
  | s :: rest => s ++ sep ++ joinWith sep rest

/-- A part of a template or line: literal text or one of the two decorator tokens. -/
inductive Piece where
  | text (s : GoString)
  | suffixTok
  | prefixTok

/-- The characters a piece stands for in a template. -/
def Piece.source : Piece → GoString
  | .text s => s
  | .suffixTok => suffixToken
  | .prefixTok => prefixToken

/-- The characters of a piece once each token is replaced by its decorator's text. -/
def Piece.filled (sfx pfx : GoString) : Piece → GoString
  | .text s => s
  | .suffixTok => sfx
  | .prefixTok => pfx

/-- A text piece without `%` and without `{`; token pieces always qualify. -/
def Piece.textOk : Piece → Bool
  | .text s => s.all fun c => c != '%' && c != '{'
  | _ => true

/-- The string a list of pieces stands for. -/
def assemble (ps : List Piece) : GoString :=
  ps.flatMap Piece.source

/-- The string of a list of pieces with every token replaced by its decorator's text. -/
def fillPieces (sfx pfx : GoString) (ps : List Piece) : GoString :=
  ps.flatMap (Piece.filled sfx pfx)

/-- A character that occurs in neither decorator token. -/
def clearChar (c : Char) : Bool :=
  !suffixToken.contains c && !prefixToken.contains c

/-- Text that is empty or begins with a character of neither token. -/
def startsClear : GoString → Bool
  | [] => true
  | c :: _ => clearChar c

/-- Text that is empty or ends with a character of neither token. -/
def endsClear (a : GoString) : Bool :=
  startsClear a.reverse

/-- The default logger with the suffix decorator stubbed to return `, T`. -/
def stubLogger : Logger :=
  { NewLogger Warn with SuffixFunc := fun _ => ", T".toList }

/-- The stubbed logger with a `Warn` template of two slots. -/
def twoSlotLogger : Logger :=
  { stubLogger with formatter := singleTemplate Warn "%s|%s".toList }

/-- The stubbed logger with a `Warn` template in which a token stands inside the
characters of another one. -/
def splicedLogger : Logger :=
  { stubLogger with
    formatter := singleTemplate Warn
      "\x7b\x7bpre\x7b\x7bprefix\x7d\x7dfix\x7d\x7d%s".toList }

/-- The two decorator passes of `Format` on a string: every `{{suffix}}` is replaced by
`sfx`, then every `{{prefix}}` of the result by `pfx`. -/
def decorate (sfx pfx x : GoString) : GoString :=
  Replace (Replace x suffixToken sfx) prefixToken pfx

/-- The last `width` decimal digits of `n`, most significant first. -/
def fixedDigits : Nat → Nat → GoString
  | 0, _ => []
  | width + 1, n => fixedDigits width (n / 10) ++ [Nat.digitChar (n % 10)]

/-- A text piece without `{`; token pieces always qualify. -/
def Piece.noOpen : Piece → Bool
  | .text s => s.all fun c => c != '{'
  | _ => true

/-- The bracket template with decorators whose texts contain both tokens. -/
def mirrorLogger : Logger :=
  { bracketLogger with
    PrefixFunc := fun _ => suffixToken ++ prefixToken
    SuffixFunc := fun _ => prefixToken ++ "|".toList ++ suffixToken }

/-! ## Decimal digits -/

theorem digitChar_mem : ∀ k, k < 10 → Nat.digitChar k ∈ digitChars := by decide

theorem toDigitsCore_mem (fuel : Nat) : ∀ (n : Nat) (ds : List Char) (c : Char),
    c ∈ Nat.toDigitsCore 10 fuel n ds → c ∈ digitChars ∨ c ∈ ds := by
  induction fuel with
  | zero => intro n ds c h; exact Or.inr (by simpa [Nat.toDigitsCore] using h)
  | succ fuel ih =>
    intro n ds c h
    have hd : Nat.digitChar (n % 10) ∈ digitChars := digitChar_mem _ (Nat.mod_lt _ (by decide))
    unfold Nat.toDigitsCore at h
    dsimp only at h
    split at h
    · rcases List.mem_cons.mp h with h | h
      · exact Or.inl (h ▸ hd)
      · exact Or.inr h
    · rcases ih _ _ _ h with h | h
      · exact Or.inl h
      · rcases List.mem_cons.mp h with h | h
        · exact Or.inl (h ▸ hd)
        · exact Or.inr h

theorem Itoa_mem (n : Int) (c : Char) (h : c ∈ Itoa n) : c = '-' ∨ c ∈ digitChars := by
  unfold Itoa at h
  cases n with
  | ofNat m =>
    rcases toDigitsCore_mem _ _ _ _ h with h | h
    · exact Or.inr h
    · cases h
  | negSucc m =>
    rcases List.mem_cons.mp h with h | h
    · exact Or.inl h
    · rcases toDigitsCore_mem _ _ _ _ h with h | h
      · exact Or.inr h
      · cases h

theorem Itoa_plain (n : Int) (c : Char) (h : c ∈ Itoa n) : c ≠ '%' ∧ c ≠ '{' ∧ c ≠ '}' := by
  rcases Itoa_mem n c h with h | h
  · subst h; decide
  · have : ∀ d ∈ digitChars, d ≠ '%' ∧ d ≠ '{' ∧ d ≠ '}' := by decide
    exact this c h

/-! ## Levels -/

theorem Name_of_other (l : Level) (h0 : l ≠ Debug) (h1 : l ≠ Warn) (h2 : l ≠ Info)
    (h3 : l ≠ Error) : Level.Name l = Itoa l := by
  simp [Level.Name, Levels, h0, h1, h2, h3]

theorem DefaultFormatterMap_none (l : Level) (h0 : l ≠ Debug) (h1 : l ≠ Warn) (h2 : l ≠ Info)
    (h3 : l ≠ Error) : DefaultFormatterMap l = none := by
  simp [DefaultFormatterMap, h0, h1, h2, h3]

theorem Name_plain (l : Level) (c : Char) (h : c ∈ Level.Name l) :
    c ≠ '%' ∧ c ≠ '{' ∧ c ≠ '}' := by
  unfold Level.Name Levels at h
  split_ifs at h with h0 h1 h2 h3
  · have : ∀ d ∈ "dbg".toList, d ≠ '%' ∧ d ≠ '{' ∧ d ≠ '}' := by decide
    exact this c h
  · have : ∀ d ∈ "wrn".toList, d ≠ '%' ∧ d ≠ '{' ∧ d ≠ '}' := by decide
    exact this c h
  · have : ∀ d ∈ "inf".toList, d ≠ '%' ∧ d ≠ '{' ∧ d ≠ '}' := by decide
    exact this c h
  · have : ∀ d ∈ "err".toList, d ≠ '%' ∧ d ≠ '{' ∧ d ≠ '}' := by decide
    exact this c h
  · exact Itoa_plain l c h

theorem plain_mem (s : GoString) (h : plain s = true) (c : Char) (hc : c ∈ s) :
    c ≠ '%' ∧ c ≠ '{' ∧ c ≠ '}' := by
  unfold plain at h
  rw [List.all_eq_true] at h
  have := h c hc
  simpa [and_assoc] using this

/-! ## The dispatch rule -/

theorem logInterface_pass (ext : FmtExt) (log : Logger) (w : Writer) (level : Level)
    (s : GoValue) (σ : World) (hq : log.Quiet = false) (hl : log.level ≤ level) :
    Logger.logInterface ext log w level s σ
      = (log, σ.after (emitted log w level (Logger.Format ext log σ.now level [s]))) := by
  unfold Logger.logInterface
  have hnot : ¬ level < log.level := not_lt.mpr hl
  simp only [hq, hnot, if_false, Bool.false_eq_true]
  cases h : log.onLogger <;> simp [emitted, World.after, Fprint, callObserver, h]

theorem logInterface_below (ext : FmtExt) (log : Logger) (w : Writer) (level : Level)
    (s : GoValue) (σ : World) (hl : level < log.level) :
    Logger.logInterface ext log w level s σ = (log, σ) := by
  unfold Logger.logInterface
  cases hq : log.Quiet <;> simp [hl]

theorem logInterface_quiet (ext : FmtExt) (log : Logger) (w : Writer) (level : Level)
    (s : GoValue) (σ : World) (hq : log.Quiet = true) :
    Logger.logInterface ext log w level s σ = (log, σ) := by
  unfold Logger.logInterface
  simp [hq]

/-- C1: on a logger with `Quiet = false`, for a level at or above the threshold and any
payload, `logInterface` (with any sink), `Print` and the per-level methods bound to that
level leave the logger as it was and add to the world exactly one write of
`Format(level, payload)` to the chosen sink, followed, when an observer is installed, by
exactly one call of it with the level and that same line, and nothing else. -/
theorem emission_writes_one_line (ext : FmtExt) (log : Logger) (level : Level) (s : GoValue)
    (σ : World) (hq : log.Quiet = false) (hl : log.level ≤ level) :
    (∀ w, Logger.logInterface ext log w level s σ
        = (log, σ.after (emitted log w level (Logger.Format ext log σ.now level [s]))))
    ∧ Logger.Print ext log level s σ
        = (log, σ.after (emitted log log.writer level (Logger.Format ext log σ.now level [s])))
    ∧ (level = Debug → Logger.Debug ext log s σ
        = (log, σ.after (emitted log log.writer Debug (Logger.Format ext log σ.now Debug [s]))))
    ∧ (level = Warn → Logger.Warn ext log s σ
        = (log, σ.after (emitted log log.writer Warn (Logger.Format ext log σ.now Warn [s]))))
    ∧ (level = Info → Logger.Info ext log s σ
        = (log, σ.after (emitted log log.writer Info (Logger.Format ext log σ.now Info [s]))))
    ∧ (level = Error → Logger.Error ext log s σ
        = (log, σ.after (emitted log log.writer Error (Logger.Format ext log σ.now Error [s]))))
    ∧ (∀ w line, emitted log w level line
        = Event.write w line :: (log.onLogger.map fun f => Event.observe f level line).toList) := by
  refine ⟨fun w => logInterface_pass ext log w level s σ hq hl,
    logInterface_pass ext log log.writer level s σ hq hl, ?_, ?_, ?_, ?_, ?_⟩
  · intro h; subst h; exact logInterface_pass ext log log.writer Debug s σ hq hl
  · intro h; subst h; exact logInterface_pass ext log log.writer Warn s σ hq hl
  · intro h; subst h; exact logInterface_pass ext log log.writer Info s σ hq hl
  · intro h; subst h; exact logInterface_pass ext log log.writer Error s σ hq hl
  · intro w line
    unfold emitted
    cases log.onLogger <;> rfl

/-- An instance of C1: `Warn("hello")` on the default logger, to which an observer has been
attached, writes one line to standard output and then calls the observer with it. -/
theorem emission_writes_one_line_witness :
    (Logger.Warn noExt { Log with onLogger := some 5 } (GoValue.str "hello".toList) world0).2.trace
      = [Event.write Stdout "[wrn] hello \n".toList,
         Event.observe 5 Warn "[wrn] hello \n".toList] := by
  have h := (emission_writes_one_line noExt { Log with onLogger := some 5 } Warn
    (GoValue.str "hello".toList) world0 rfl (by decide)).2.2.2.1 rfl
  rw [h]
  decide

/-- C2: for a level strictly below the threshold (integer order, so
Debug < Warn < Info < Error) every emission path returns the logger and the world
unchanged: no write, no observer call. -/
theorem emission_below_threshold_silent (ext : FmtExt) (log : Logger) (level : Level)
    (σ : World) (hl : level < log.level) :
    (∀ w s, Logger.logInterface ext log w level s σ = (log, σ))
    ∧ (∀ w format s, Logger.logInterfacef ext log w level format s σ = (log, σ))
    ∧ (∀ s, Logger.Print ext log level s σ = (log, σ))
    ∧ (∀ format s, Logger.Printf ext log level format s σ = (log, σ))
    ∧ (∀ w s, Logger.Println ext log w level s σ = (log, σ))
    ∧ (level = Debug → (∀ s, Logger.Debug ext log s σ = (log, σ))
        ∧ (∀ format s, Logger.Debugf ext log format s σ = (log, σ))
        ∧ (∀ w format s, Logger.FDebugf ext log w format s σ = (log, σ)))
    ∧ (level = Warn → (∀ s, Logger.Warn ext log s σ = (log, σ))
        ∧ (∀ format s, Logger.Warnf ext log format s σ = (log, σ))
        ∧ (∀ w format s, Logger.FWarnf ext log w format s σ = (log, σ)))
    ∧ (level = Info → (∀ s, Logger.Info ext log s σ = (log, σ))
        ∧ (∀ format s, Logger.Infof ext log format s σ = (log, σ))
        ∧ (∀ w format s, Logger.FInfof ext log w format s σ = (log, σ)))
    ∧ (level = Error → (∀ s, Logger.Error ext log s σ = (log, σ))
        ∧ (∀ format s, Logger.Errorf ext log format s σ = (log, σ))
        ∧ (∀ w format s, Logger.FErrorf ext log w format s σ = (log, σ))) := by
  have key : ∀ w s, Logger.logInterface ext log w level s σ = (log, σ) :=
    fun w s => logInterface_below ext log w level s σ hl
  refine ⟨key, fun w f s => key w _, fun s => key _ s, fun f s => key _ _, fun w s => key w _,
    ?_, ?_, ?_, ?_⟩ <;> intro h <;> subst h <;>
  exact ⟨fun s => key _ s, fun f s => key _ _, fun w f s => key w _⟩

/-- An instance of C2: `Debug("x")` on the default logger, whose threshold is `Warn`,
emits nothing. -/
theorem emission_below_threshold_silent_witness :
    Debug < Log.level ∧ Logger.Debug noExt Log (GoValue.str "x".toList) world0 = (Log, world0) :=
  ⟨by decide,
    ((emission_below_threshold_silent noExt Log Debug world0 (by decide)).2.2.2.2.2.1 rfl).1 _⟩

/-- C3: on a logger with `Quiet = true` every emission path, at every level (also `Error`
and levels at or above the threshold) and for every payload, returns the logger and the
world unchanged: no write, no observer call. -/
theorem emission_quiet_silent (ext : FmtExt) (log : Logger) (σ : World)
    (hq : log.Quiet = true) :
    (∀ w level s, Logger.logInterface ext log w level s σ = (log, σ))
    ∧ (∀ w level format s, Logger.logInterfacef ext log w level format s σ = (log, σ))
    ∧ (∀ level s, Logger.Print ext log level s σ = (log, σ))
    ∧ (∀ level format s, Logger.Printf ext log level format s σ = (log, σ))
    ∧ (∀ w level s, Logger.Println ext log w level s σ = (log, σ))
    ∧ ((∀ s, Logger.Debug ext log s σ = (log, σ))
        ∧ (∀ format s, Logger.Debugf ext log format s σ = (log, σ))
        ∧ (∀ w format s, Logger.FDebugf ext log w format s σ = (log, σ)))
    ∧ ((∀ s, Logger.Warn ext log s σ = (log, σ))
        ∧ (∀ format s, Logger.Warnf ext log format s σ = (log, σ))
        ∧ (∀ w format s, Logger.FWarnf ext log w format s σ = (log, σ)))
    ∧ ((∀ s, Logger.Info ext log s σ = (log, σ))
        ∧ (∀ format s, Logger.Infof ext log format s σ = (log, σ))
        ∧ (∀ w format s, Logger.FInfof ext log w format s σ = (log, σ)))
    ∧ ((∀ s, Logger.Error ext log s σ = (log, σ))
        ∧ (∀ format s, Logger.Errorf ext log format s σ = (log, σ))
        ∧ (∀ w format s, Logger.FErrorf ext log w format s σ = (log, σ))) := by
  have key : ∀ w level s, Logger.logInterface ext log w level s σ = (log, σ) :=
    fun w level s => logInterface_quiet ext log w level s σ hq
  exact ⟨key, fun w l f s => key w l _, fun l s => key _ l s, fun l f s => key _ l _,
    fun w l s => key w l _,
    ⟨fun s => key _ _ s, fun f s => key _ _ _, fun w f s => key w _ _⟩,
    ⟨fun s => key _ _ s, fun f s => key _ _ _, fun w f s => key w _ _⟩,
    ⟨fun s => key _ _ s, fun f s => key _ _ _, fun w f s => key w _ _⟩,
    ⟨fun s => key _ _ s, fun f s => key _ _ _, fun w f s => key w _ _⟩⟩

/-- An instance of C3: after `SetQuiet(true)` on the default logger, `Error("boom")` emits
nothing. -/
theorem emission_quiet_silent_witness :
    (Logger.Error noExt (Logger.SetQuiet Log true world0).1 (GoValue.str "boom".toList) world0).2
      = world0 :=
  congrArg Prod.snd
    ((emission_quiet_silent noExt (Logger.SetQuiet Log true world0).1 world0 rfl).2.2.2.2.2.2.2.2.1 _)

/-! ## The formatter `fmt.Sprintf` -/

theorem doPrintf_nil (ext : FmtExt) (a : List GoValue) (n : Nat) :
    doPrintf ext a [] n = extraArgs a n := by
  rw [doPrintf.eq_def]

theorem doPrintf_append_plain (ext : FmtExt) (a : List GoValue) (p r : GoString) (n : Nat)
    (hp : ∀ c ∈ p, c ≠ '%') : doPrintf ext a (p ++ r) n = p ++ doPrintf ext a r n := by
  induction p with
  | nil => rfl
  | cons c p ih =>
    have hc : c ≠ '%' := hp c (List.mem_cons_self _ _)
    have := ih (fun d hd => hp d (List.mem_cons_of_mem _ hd))
    rw [List.cons_append, doPrintf.eq_def]
    simp [hc, this]

theorem doPrintf_verb_s (ext : FmtExt) (a : List GoValue) (r : GoString) (n : Nat) :
    doPrintf ext a ('%' :: 's' :: r) n
      = match a.get? n with
        | some v => printArg v 's' ++ doPrintf ext a r (n + 1)
        | none => missingArg 's' ++ doPrintf ext a r n := by
  rw [doPrintf.eq_def]
  simp

/-- A template with one `%s` between two stretches of text free of `%`, applied to one
string: the string takes the place of the slot. -/
theorem Sprintf_one_slot (ext : FmtExt) (a b P : GoString) (ha : ∀ c ∈ a, c ≠ '%')
    (hb : ∀ c ∈ b, c ≠ '%') :
    Sprintf ext (a ++ "%s".toList ++ b) [GoValue.str P] = a ++ P ++ b := by
  have hb2 := doPrintf_append_plain ext [GoValue.str P] b [] 1 hb
  rw [List.append_nil] at hb2
  unfold Sprintf
  rw [List.append_assoc, doPrintf_append_plain ext _ a _ 0 ha]
  show a ++ doPrintf ext [GoValue.str P] ('%' :: 's' :: b) 0 = a ++ P ++ b
  rw [doPrintf_verb_s, hb2, doPrintf_nil]
  simp [printArg, extraArgs]

/-- A template free of `%`, applied to one string: the string is reported as an extra
operand after the template. -/
theorem Sprintf_no_slot (ext : FmtExt) (t P : GoString) (ht : ∀ c ∈ t, c ≠ '%') :
    Sprintf ext t [GoValue.str P]
      = t ++ "%!(EXTRA string=".toList ++ P ++ ")".toList := by
  have h := doPrintf_append_plain ext [GoValue.str P] t [] 0 ht
  rw [List.append_nil] at h
  unfold Sprintf
  rw [h, doPrintf_nil]
  simp [extraArgs, GoValue.typeName, GoValue.print, List.intercalate]

/-- The last branch of `Format` passes the level name as a first operand to `[%s] %s `;
that is the same as formatting the payload with the template `[<name>] %s `. -/
theorem Sprintf_fallback (ext : FmtExt) (name : GoString) (s : List GoValue)
    (hn : ∀ c ∈ name, c ≠ '%') :
    Sprintf ext "[%s] %s ".toList (GoValue.str name :: s)
      = Sprintf ext ("[".toList ++ name ++ "] %s ".toList) s := by
  have e1 : "[%s] %s ".toList = ['['] ++ ('%' :: 's' :: ([']', ' '] ++ ('%' :: 's' :: [' ']))) := rfl
  have e2 : "[".toList ++ name ++ "] %s ".toList
      = ('[' :: name ++ [']', ' ']) ++ ('%' :: 's' :: [' ']) := by
    simp
  have h1 : ∀ c ∈ ['['], c ≠ '%' := by decide
  have h2 : ∀ c ∈ [']', ' '], c ≠ '%' := by decide
  have h3 : ∀ c ∈ [' '], c ≠ '%' := by decide
  have h4 : ∀ c ∈ ('[' :: name ++ [']', ' ']), c ≠ '%' := by
    intro c hc
    simp only [List.cons_append, List.mem_cons, List.mem_append] at hc
    rcases hc with h | h | h
    · subst h; decide
    · exact hn c h
    · rcases h with h | h | h
      · subst h; decide
      · subst h; decide
      · cases h
  have tail : ∀ (a : List GoValue) (n : Nat),
      doPrintf ext a [' '] n = ' ' :: extraArgs a n := by
    intro a n
    have := doPrintf_append_plain ext a [' '] [] n h3
    simpa [doPrintf_nil] using this
  unfold Sprintf
  rw [e1, e2, doPrintf_append_plain ext _ _ _ 0 h1, doPrintf_verb_s,
    doPrintf_append_plain ext _ _ _ 0 h4, doPrintf_verb_s]
  simp only [List.get?_cons_zero]
  rw [doPrintf_append_plain ext _ _ _ _ h2, doPrintf_verb_s]
  simp only [tail]
  cases s with
  | nil => simp [printArg, extraArgs]
  | cons x xs => simp [printArg, extraArgs]

/-! ## The scan `strings.Replace` -/

theorem replaceLoop_skip (old new : GoString) (p r : GoString) :
    replaceLoop old new p.length (p ++ r) = replaceLoop old new 0 r := by
  induction p with
  | nil => rfl
  | cons c p ih => simpa [replaceLoop] using ih

theorem replaceLoop_match (old new r : GoString) (hold : old ≠ []) :
    replaceLoop old new 0 (old ++ r) = new ++ replaceLoop old new 0 r := by
  cases old with
  | nil => exact absurd rfl hold
  | cons h t =>
    have hp : (h :: t).isPrefixOf (h :: (t ++ r)) = true := by
      rw [List.isPrefixOf_iff_prefix]; exact List.prefix_append (h :: t) r
    rw [List.cons_append, replaceLoop, if_pos hp]
    simpa using replaceLoop_skip (h :: t) new t r

theorem replaceLoop_no_head (h : Char) (tl new u r : GoString) (hu : h ∉ u) :
    replaceLoop (h :: tl) new 0 (u ++ r) = u ++ replaceLoop (h :: tl) new 0 r := by
  induction u with
  | nil => rfl
  | cons c u ih =>
    have hc : ¬ h = c := fun e => hu (e ▸ List.mem_cons_self _ _)
    have hp : (h :: tl).isPrefixOf (c :: (u ++ r)) = false := by
      simp [List.isPrefixOf, hc]
    rw [List.cons_append, replaceLoop, hp]
    simp [ih (fun hm => hu (List.mem_cons_of_mem _ hm))]

theorem replaceLoop_absent (old new s : GoString) (h : ¬ old <:+: s) :
    replaceLoop old new 0 s = s := by
  induction s with
  | nil => rfl
  | cons c cs ih =>
    have hp : old.isPrefixOf (c :: cs) = false := by
      rw [Bool.eq_false_iff]
      intro hp
      exact h ((List.isPrefixOf_iff_prefix.mp hp).isInfix)
    rw [replaceLoop, hp]
    simp [ih (fun hi => h (List.infix_cons hi))]

theorem prefix_of_append_no_last (init : GoString) (l : Char) (x t : GoString) (ht : l ∉ t)
    (h : init ++ [l] <+: x ++ t) : init ++ [l] <+: x := by
  rcases List.prefix_or_prefix_of_prefix h (List.prefix_append x t) with hx | hx
  · exact hx
  · obtain ⟨y, hy⟩ := hx
    rw [← hy] at h
    have hyt : y <+: t := (List.prefix_append_right_inj x).mp h
    rcases List.eq_nil_or_concat y with rfl | ⟨y', m, rfl⟩
    · rw [List.append_nil] at hy; rw [hy]
    · exfalso
      rw [List.concat_eq_append, ← List.append_assoc] at hy
      have hm : m = l := by
        have := List.append_inj_right' hy rfl
        simpa using this
      subst hm
      exact ht (hyt.subset (by simp))

theorem replaceLoop_no_last (init : GoString) (l : Char) (new t : GoString) (ht : l ∉ t) :
    ∀ (x : GoString) (k : Nat), k ≤ x.length →
      replaceLoop (init ++ [l]) new k (x ++ t) = replaceLoop (init ++ [l]) new k x ++ t := by
  intro x
  induction x with
  | nil =>
    intro k hk
    have hk0 : k = 0 := by simpa using hk
    subst hk0
    have : ¬ (init ++ [l]) <:+: t := fun hi => ht (hi.subset (by simp))
    simpa [replaceLoop] using replaceLoop_absent (init ++ [l]) new t this
  | cons c x ih =>
    intro k hk
    cases k with
    | succ k =>
      have hk2 : k ≤ x.length := by simpa using hk
      simpa [replaceLoop] using ih k hk2
    | zero =>
      rw [List.cons_append, replaceLoop, replaceLoop]
      by_cases hp : (init ++ [l]).isPrefixOf (c :: (x ++ t)) = true
      · have hpx : init ++ [l] <+: c :: x := by
          apply prefix_of_append_no_last init l (c :: x) t ht
          simpa using List.isPrefixOf_iff_prefix.mp hp
        have hp2 : (init ++ [l]).isPrefixOf (c :: x) = true := List.isPrefixOf_iff_prefix.mpr hpx
        have hlen : (init ++ [l]).length - 1 ≤ x.length := by
          have := hpx.length_le
          simp at this ⊢
          omega
        rw [if_pos hp, if_pos hp2, ih _ hlen, List.append_assoc]
      · have hp2 : ¬ (init ++ [l]).isPrefixOf (c :: x) = true := by
          intro h2
          apply hp
          rw [List.isPrefixOf_iff_prefix] at h2 ⊢
          exact h2.trans (by simp)
        rw [if_neg hp, if_neg hp2, ih 0 (Nat.zero_le _), List.cons_append]

theorem suffixToken_isToken : IsToken suffixToken := ⟨_, rfl, "\x7b\x7bsuffix\x7d".toList, rfl⟩

theorem prefixToken_isToken : IsToken prefixToken := ⟨_, rfl, "\x7b\x7bprefix\x7d".toList, rfl⟩

theorem Replace_token (old new s : GoString) (h : IsToken old) :
    Replace s old new = replaceLoop old new 0 s := by
  obtain ⟨mid, e, -⟩ := h
  simp [Replace, e]

/-- Text before the first `{` is copied and the scan goes on behind it. -/
theorem Replace_no_head (old new u r : GoString) (h : IsToken old) (hu : '{' ∉ u) :
    Replace (u ++ r) old new = u ++ Replace r old new := by
  rw [Replace_token _ _ _ h, Replace_token _ _ _ h]
  obtain ⟨mid, e, -⟩ := h
  subst e
  exact replaceLoop_no_head _ _ _ _ _ hu

/-- A token at the head of the line is replaced by the decorator text as it is, and the
scan goes on behind the token: the spliced text is not scanned. -/
theorem Replace_match (old new r : GoString) (h : IsToken old) :
    Replace (old ++ r) old new = new ++ Replace r old new := by
  rw [Replace_token _ _ _ h, Replace_token _ _ _ h]
  obtain ⟨mid, e, -⟩ := h
  exact replaceLoop_match _ _ _ (by simp [e])

/-- Text after the last `}` is copied. -/
theorem Replace_no_last (old new x t : GoString) (h : IsToken old) (ht : '}' ∉ t) :
    Replace (x ++ t) old new = Replace x old new ++ t := by
  rw [Replace_token _ _ _ h, Replace_token _ _ _ h]
  obtain ⟨-, -, init, e⟩ := h
  subst e
  exact replaceLoop_no_last _ _ _ _ ht x 0 (Nat.zero_le _)

/-- A line in which the token does not occur is left as it is. -/
theorem Replace_absent (old new s : GoString) (h : IsToken old) (hs : ¬ old <:+: s) :
    Replace s old new = s := by
  rw [Replace_token _ _ _ h]
  exact replaceLoop_absent _ _ _ hs

theorem token_absent (old s : GoString) (h : IsToken old) (hs : '{' ∉ s) : ¬ old <:+: s := by
  obtain ⟨mid, e, -⟩ := h
  intro hi
  exact hs (hi.subset (by simp [e]))

/-! ## The rendering rule -/

theorem Format_eq_render (ext : FmtExt) (log : Logger) (now : Time) (level : Level)
    (s : List GoValue) :
    Logger.Format ext log now level s
      = Replace (Replace (Sprintf ext (selectTemplate log.formatter level) s)
          suffixToken (log.SuffixFunc now)) prefixToken (log.PrefixFunc now) := by
  unfold Logger.Format selectTemplate
  cases h1 : log.formatter level with
  | some f => rfl
  | none =>
    cases h2 : DefaultFormatterMap level with
    | some f => rfl
    | none =>
      simp only []
      rw [Sprintf_fallback ext _ s (fun c hc => (Name_plain level c hc).1)]

/-- Rendering under a template with a single `%s` slot. -/
theorem Format_slot (ext : FmtExt) (log : Logger) (now : Time) (level : Level)
    (a b P : GoString) (hT : selectTemplate log.formatter level = a ++ "%s".toList ++ b)
    (ha : '%' ∉ a) (hb : '%' ∉ b) :
    Logger.Format ext log now level [GoValue.str P]
      = Replace (Replace (a ++ P ++ b) suffixToken (log.SuffixFunc now))
          prefixToken (log.PrefixFunc now) := by
  rw [Format_eq_render, hT,
    Sprintf_one_slot ext a b P (fun c hc e => ha (e ▸ hc)) (fun c hc e => hb (e ▸ hc))]

/-- C4: when the template selected for the level is `a ++ "%s" ++ b` with no `%` in `a` or
`b` (exactly one `%s` slot and no other verb), `Format` of a string payload `P` is the
line `a ++ P ++ b` in which every `{{suffix}}` has been replaced by the suffix decorator's
text and then every `{{prefix}}` by the other decorator's text; nothing is appended or
trimmed. -/
theorem Format_one_slot (ext : FmtExt) (log : Logger) (now : Time) (level : Level)
    (a b P : GoString) (hT : selectTemplate log.formatter level = a ++ "%s".toList ++ b)
    (ha : '%' ∉ a) (hb : '%' ∉ b) :
    Logger.Format ext log now level [GoValue.str P]
      = Replace (Replace (a ++ P ++ b) suffixToken (log.SuffixFunc now))
          prefixToken (log.PrefixFunc now) :=
  Format_slot ext log now level a b P hT ha hb

/-- An instance of C4: with the template `<<{{prefix}}|%s|{{suffix}}>>` for `Warn` and
decorators returning `P` and `S`, the payload `m` renders as `<<P|m|S>>`. -/
theorem Format_one_slot_witness :
    Logger.Format noExt bracketLogger clock0 Warn [GoValue.str "m".toList]
      = "<<P|m|S>>".toList :=
  (Format_one_slot noExt bracketLogger clock0 Warn
    "<<\x7b\x7bprefix\x7d\x7d|".toList "|\x7b\x7bsuffix\x7d\x7d>>".toList "m".toList
    (by decide) (by decide) (by decide)).trans (by decide)

/-- C5: `Format` renders with the template picked by the three-step chain, for every
logger, level and payload list: the entry of the logger's table when there is one (whether
or not a built-in exists), else the built-in entry, else `[<name>] %s ` with the trailing
space; a logger whose table was replaced by one without an entry for a canonical level
renders that level with its built-in template. -/
theorem Format_template_chain (ext : FmtExt) (log : Logger) (now : Time) (level : Level)
    (s : List GoValue) :
    Logger.Format ext log now level s
        = Replace (Replace (Sprintf ext (selectTemplate log.formatter level) s)
            suffixToken (log.SuffixFunc now)) prefixToken (log.PrefixFunc now)
    ∧ (∀ f, log.formatter level = some f →
        Logger.Format ext log now level s
          = Replace (Replace (Sprintf ext f s) suffixToken (log.SuffixFunc now))
              prefixToken (log.PrefixFunc now))
    ∧ (log.formatter level = none → ∀ f, DefaultFormatterMap level = some f →
        Logger.Format ext log now level s
          = Replace (Replace (Sprintf ext f s) suffixToken (log.SuffixFunc now))
              prefixToken (log.PrefixFunc now))
    ∧ (log.formatter level = none → DefaultFormatterMap level = none →
        Logger.Format ext log now level s
          = Replace (Replace (Sprintf ext ("[".toList ++ Level.Name level ++ "] %s ".toList) s)
              suffixToken (log.SuffixFunc now)) prefixToken (log.PrefixFunc now))
    ∧ (∀ (table : LevelMap) (σ : World), table level = none →
        (level = Debug ∨ level = Warn ∨ level = Info ∨ level = Error) →
        Logger.Format ext (Logger.SetFormatter log table σ).1 now level s
          = Replace (Replace (Sprintf ext (Level.Formatter level) s)
              suffixToken (log.SuffixFunc now)) prefixToken (log.PrefixFunc now)) := by
  refine ⟨Format_eq_render ext log now level s, ?_, ?_, ?_, ?_⟩
  · intro f hf
    rw [Format_eq_render]; simp [selectTemplate, hf]
  · intro hn f hf
    rw [Format_eq_render]; simp [selectTemplate, hn, hf]
  · intro hn hd
    rw [Format_eq_render]; simp [selectTemplate, hn, hd]
  · intro table σ ht hl
    rw [Format_eq_render]
    have hsel : selectTemplate (Logger.SetFormatter log table σ).1.formatter level
        = Level.Formatter level := by
      simp only [Logger.SetFormatter, selectTemplate, ht, Level.Formatter]
      rcases hl with h | h | h | h <;> subst h <;> rfl
    rw [hsel]
    rfl

/-- An instance of C5: once the table of the default logger is replaced by the empty
table, `Warn` still renders with the built-in template, and the unknown level 7 with
`[7] %s `. -/
theorem Format_template_chain_witness :
    Logger.Format noExt (Logger.SetFormatter Log (fun _ => none) world0).1 clock0 Warn
        [GoValue.str "hello".toList] = "[wrn] hello \n".toList
    ∧ Logger.Format noExt (Logger.SetFormatter Log (fun _ => none) world0).1 clock0 7
        [GoValue.str "hello".toList] = "[7] hello ".toList :=
  ⟨((Format_template_chain noExt Log clock0 Warn [GoValue.str "hello".toList]).2.2.2.2
      (fun _ => none) world0 rfl (Or.inr (Or.inl rfl))).trans (by decide),
   ((Format_template_chain noExt (Logger.SetFormatter Log (fun _ => none) world0).1 clock0 7
      [GoValue.str "hello".toList]).2.2.2.1 rfl (by decide)).trans (by decide)⟩

/-- C6, as the claim words it, fails on the default logger at the unknown level 7: the
line for the payload `x` is `[7] x ` with a trailing space, not `[7] x`; and a token
written in the payload is replaced by the decorator's text. -/
theorem Format_unknown_level_counterexample :
    Log.formatter 7 = none
    ∧ Logger.Format noExt Log clock0 7 [GoValue.str "x".toList] = "[7] x ".toList
    ∧ Logger.Format noExt Log clock0 7 [GoValue.str "x".toList]
        ≠ "[".toList ++ Level.Name 7 ++ "] ".toList ++ "x".toList
    ∧ Logger.Format noExt Log clock0 7 [GoValue.str suffixToken]
        = "[7] , 2024-03-09 07:05.01 ".toList := by
  decide

/-- C6, amended: for a level that is none of Debug, Warn, Info, Error and has no entry in
the logger's table, and a string payload `P`, `Format` yields `[<name>] `, then `P` with
the decorator tokens written in it replaced (suffix pass, then the other pass), then one
space and no newline; when `P` contains neither token that is `[<name>] P ` and no
decorator text appears. -/
theorem Format_unknown_level (ext : FmtExt) (log : Logger) (now : Time) (level : Level)
    (P : GoString) (h0 : level ≠ Debug) (h1 : level ≠ Warn) (h2 : level ≠ Info)
    (h3 : level ≠ Error) (hf : log.formatter level = none) :
    Logger.Format ext log now level [GoValue.str P]
        = "[".toList ++ Level.Name level ++ "] ".toList
            ++ Replace (Replace P suffixToken (log.SuffixFunc now))
                prefixToken (log.PrefixFunc now)
            ++ " ".toList
    ∧ (¬ suffixToken <:+: P → ¬ prefixToken <:+: P →
        Logger.Format ext log now level [GoValue.str P]
          = "[".toList ++ Level.Name level ++ "] ".toList ++ P ++ " ".toList) := by
  have hd := DefaultFormatterMap_none level h0 h1 h2 h3
  have hsel : selectTemplate log.formatter level
      = ("[".toList ++ Level.Name level ++ "] ".toList) ++ "%s".toList ++ " ".toList := by
    simp [selectTemplate, hf, hd]
  have hhead : ∀ c ∈ "[".toList ++ Level.Name level ++ "] ".toList,
      c ≠ '%' ∧ c ≠ '{' ∧ c ≠ '}' := by
    intro c hc
    simp only [List.mem_append] at hc
    rcases hc with (hc | hc) | hc
    · have : ∀ d ∈ "[".toList, d ≠ '%' ∧ d ≠ '{' ∧ d ≠ '}' := by decide
      exact this c hc
    · exact Name_plain level c hc
    · have : ∀ d ∈ "] ".toList, d ≠ '%' ∧ d ≠ '{' ∧ d ≠ '}' := by decide
      exact this c hc
  have hopen : '{' ∉ "[".toList ++ Level.Name level ++ "] ".toList :=
    fun hc => (hhead _ hc).2.1 rfl
  have hclose : '}' ∉ " ".toList := by decide
  have hmain : Logger.Format ext log now level [GoValue.str P]
        = "[".toList ++ Level.Name level ++ "] ".toList
            ++ Replace (Replace P suffixToken (log.SuffixFunc now))
                prefixToken (log.PrefixFunc now)
            ++ " ".toList := by
    rw [Format_slot ext log now level _ _ P hsel (fun hc => (hhead _ hc).1 rfl) (by decide)]
    rw [List.append_assoc, Replace_no_head _ _ _ _ suffixToken_isToken hopen,
      Replace_no_last _ _ _ _ suffixToken_isToken hclose,
      Replace_no_head _ _ _ _ prefixToken_isToken hopen,
      Replace_no_last _ _ _ _ prefixToken_isToken hclose, ← List.append_assoc]
  refine ⟨hmain, fun hs hp => ?_⟩
  rw [hmain, Replace_absent _ _ _ suffixToken_isToken hs,
    Replace_absent _ _ _ prefixToken_isToken hp]

/-- An instance of the amended C6 at level 7 on the default logger. -/
theorem Format_unknown_level_witness :
    Logger.Format noExt Log clock0 7 [GoValue.str "x".toList]
      = "[".toList ++ Level.Name 7 ++ "] ".toList ++ "x".toList ++ " ".toList :=
  (Format_unknown_level noExt Log clock0 7 "x".toList (by decide) (by decide) (by decide)
    (by decide) rfl).2 (by decide) (by decide)

/-- C7, as the claim words it, fails: when the suffix decorator returns `{{prefix}}`, the
token it spliced in does not stay in the line; the second pass replaces it, whereas one
pass that leaves decorator text alone would keep it. -/
theorem Format_decorator_text_counterexample :
    prefixToken <:+: nestedLogger.SuffixFunc clock0
    ∧ Logger.Format noExt nestedLogger clock0 Warn [GoValue.str "m".toList] = "mP".toList
    ∧ spliceTokens (nestedLogger.SuffixFunc clock0) (nestedLogger.PrefixFunc clock0) 0
        (Sprintf noExt (selectTemplate nestedLogger.formatter Warn) [GoValue.str "m".toList])
        = "m\x7b\x7bprefix\x7d\x7d".toList
    ∧ ¬ prefixToken <:+: Logger.Format noExt nestedLogger clock0 Warn [GoValue.str "m".toList] := by
  decide

/-- Rendering under a template with one token behind the slot, for decorator texts of
any form. -/
theorem Format_decorator_shapes (ext : FmtExt) (log : Logger) (now : Time) (level : Level)
    (a b c P : GoString) (ha : plain a = true) (hb : plain b = true) (hc : plain c = true)
    (hP : '{' ∉ P) :
    (selectTemplate log.formatter level = a ++ "%s".toList ++ (b ++ prefixToken ++ c) →
      Logger.Format ext log now level [GoValue.str P]
        = a ++ P ++ b ++ log.PrefixFunc now ++ c)
    ∧ (selectTemplate log.formatter level = a ++ "%s".toList ++ (b ++ suffixToken ++ c) →
      Logger.Format ext log now level [GoValue.str P]
          = a ++ P ++ b ++ Replace (log.SuffixFunc now) prefixToken (log.PrefixFunc now) ++ c
      ∧ (¬ prefixToken <:+: log.SuffixFunc now →
          Logger.Format ext log now level [GoValue.str P]
            = a ++ P ++ b ++ log.SuffixFunc now ++ c)) := by
  have hts := suffixToken_isToken
  have htp := prefixToken_isToken
  have ha1 : '%' ∉ a := fun h => (plain_mem a ha _ h).1 rfl
  have ha2 : '{' ∉ a := fun h => (plain_mem a ha _ h).2.1 rfl
  have hb2 : '{' ∉ b := fun h => (plain_mem b hb _ h).2.1 rfl
  have hc2 : '{' ∉ c := fun h => (plain_mem c hc _ h).2.1 rfl
  have hc3 : '}' ∉ c := fun h => (plain_mem c hc _ h).2.2 rfl
  have hpct : ∀ tok : GoString, '%' ∉ tok → '%' ∉ b ++ tok ++ c := by
    intro tok htok h
    simp only [List.mem_append] at h
    rcases h with (h | h) | h
    · exact (plain_mem b hb _ h).1 rfl
    · exact htok h
    · exact (plain_mem c hc _ h).1 rfl
  have hhead : ∀ (old new r : GoString), IsToken old →
      Replace (a ++ (P ++ (b ++ r))) old new = a ++ (P ++ (b ++ Replace r old new)) := by
    intro old new r h
    rw [Replace_no_head _ _ a _ h ha2, Replace_no_head _ _ P _ h hP,
      Replace_no_head _ _ b _ h hb2]
  have hcs : ∀ new, Replace c suffixToken new = c :=
    fun new => Replace_absent _ _ _ hts (token_absent _ _ hts hc2)
  have hcp : ∀ new, Replace c prefixToken new = c :=
    fun new => Replace_absent _ _ _ htp (token_absent _ _ htp hc2)
  constructor
  · intro hT
    rw [Format_slot ext log now level a _ P hT ha1 (hpct _ (by decide))]
    simp only [List.append_assoc]
    rw [hhead _ _ _ hts, Replace_no_last _ _ _ _ hts hc3,
      Replace_absent _ _ prefixToken hts (by decide), hhead _ _ _ htp,
      Replace_match _ _ _ htp, hcp]
  · intro hT
    have hmain : Logger.Format ext log now level [GoValue.str P]
        = a ++ P ++ b ++ Replace (log.SuffixFunc now) prefixToken (log.PrefixFunc now) ++ c := by
      rw [Format_slot ext log now level a _ P hT ha1 (hpct _ (by decide))]
      simp only [List.append_assoc]
      rw [hhead _ _ _ hts, Replace_match _ _ _ hts, hcs, hhead _ _ _ htp,
        Replace_no_last _ _ _ _ htp hc3]
    refine ⟨hmain, fun hno => ?_⟩
    rw [hmain, Replace_absent _ _ _ htp hno]

/-- C8, as the claim words it, fails: under the template `quiet`, which has no slot, the
payload `x` is not dropped; the line ends in the report `%!(EXTRA string=x)`. -/
theorem Format_no_slot_counterexample :
    '%' ∉ selectTemplate slotlessLogger.formatter Warn
    ∧ Logger.Format noExt slotlessLogger clock0 Warn [GoValue.str "x".toList]
        = "quiet%!(EXTRA string=x)".toList
    ∧ Logger.Format noExt slotlessLogger clock0 Warn [GoValue.str "x".toList]
        ≠ Replace (Replace (selectTemplate slotlessLogger.formatter Warn) suffixToken
            (slotlessLogger.SuffixFunc clock0)) prefixToken (slotlessLogger.PrefixFunc clock0) := by
  decide

/-- C8, amended: when the template selected for the level contains no `%` (no payload
slot), `Format` of a string payload `P` returns, without failing, the template followed by
the extra-operand report `%!(EXTRA string=P)`, with the decorator tokens of that whole
line replaced; the payload is not dropped. -/
theorem Format_no_slot (ext : FmtExt) (log : Logger) (now : Time) (level : Level)
    (P : GoString) (hT : '%' ∉ selectTemplate log.formatter level) :
    Logger.Format ext log now level [GoValue.str P]
      = Replace (Replace
          (selectTemplate log.formatter level ++ "%!(EXTRA string=".toList ++ P ++ ")".toList)
          suffixToken (log.SuffixFunc now)) prefixToken (log.PrefixFunc now) := by
  rw [Format_eq_render, Sprintf_no_slot ext _ P (fun c hc e => hT (e ▸ hc))]

/-- An instance of the amended C8 under the template `quiet`. -/
theorem Format_no_slot_witness :
    Logger.Format noExt slotlessLogger clock0 Warn [GoValue.str "x".toList]
      = "quiet%!(EXTRA string=x)".toList :=
  (Format_no_slot noExt slotlessLogger clock0 Warn "x".toList (by decide)).trans (by decide)

/-! ## Names and built-in templates -/

theorem digitChar_value : ∀ k, k < 10 → (Nat.digitChar k).toNat - '0'.toNat = k := by decide

theorem digitsValue_toDigitsCore (fuel : Nat) : ∀ (n : Nat) (ds : List Char), n < fuel →
    (Nat.toDigitsCore 10 fuel n ds).foldl (fun acc c => 10 * acc + (c.toNat - '0'.toNat)) 0
      = ds.foldl (fun acc c => 10 * acc + (c.toNat - '0'.toNat)) n := by
  induction fuel with
  | zero => intro n ds h; exact absurd h (Nat.not_lt_zero _)
  | succ fuel ih =>
    intro n ds h
    have hd := digitChar_value (n % 10) (Nat.mod_lt _ (by decide))
    unfold Nat.toDigitsCore
    dsimp only
    split
    · rename_i h0
      have hn : n % 10 = n := by omega
      rw [hn] at hd
      simp only [List.foldl_cons, hd, Nat.mul_zero, Nat.zero_add, hn]
    · rename_i h0
      have hlt : n / 10 < fuel := by omega
      rw [ih _ _ hlt]
      simp only [List.foldl_cons, hd]
      congr 1
      omega

theorem digitsValue_toDigits (n : Nat) : digitsValue (Nat.toDigits 10 n) = n := by
  unfold digitsValue Nat.toDigits
  rw [digitsValue_toDigitsCore _ _ _ (Nat.lt_succ_self n)]
  rfl

theorem decimalValue_Itoa (n : Int) : decimalValue (Itoa n) = n := by
  cases n with
  | ofNat m =>
    have hm : decimalValue (Nat.toDigits 10 m) = (digitsValue (Nat.toDigits 10 m) : Int) := by
      cases hds : Nat.toDigits 10 m with
      | nil => rfl
      | cons c cs =>
        have hc : c ≠ '-' := by
          have hmem : c ∈ Itoa (Int.ofNat m) := by
            show c ∈ Nat.toDigits 10 m
            rw [hds]; exact List.mem_cons_self _ _
          rcases Itoa_mem _ c hmem with h | h
          · exfalso
            subst h
            have hcore := toDigitsCore_mem _ _ _ _ (show '-' ∈ Nat.toDigitsCore 10 (m + 1) m [] from hmem)
            have hnot : '-' ∉ digitChars := by decide
            rcases hcore with h | h
            · exact hnot h
            · cases h
          · intro e
            subst e
            have hnot : '-' ∉ digitChars := by decide
            exact hnot h
        unfold decimalValue
        split
        · rename_i ds heq
          exact absurd (List.cons.inj heq).1 hc
        · rfl
    show decimalValue (Nat.toDigits 10 m) = _
    rw [hm, digitsValue_toDigits]
    rfl
  | negSucc m =>
    show decimalValue ('-' :: Nat.toDigits 10 (m + 1)) = _
    unfold decimalValue
    simp only [digitsValue_toDigits]
    rfl

/-- C9: `Level.Name` is `dbg`, `wrn`, `inf`, `err` for the four canonical levels, and for
every other integer, negative ones included, the decimal numeral `strconv.Itoa` prints,
whose value is that integer. -/
theorem Level_Name_values :
    Level.Name Debug = "dbg".toList
    ∧ Level.Name Warn = "wrn".toList
    ∧ Level.Name Info = "inf".toList
    ∧ Level.Name Error = "err".toList
    ∧ ∀ l : Level, l ≠ Debug → l ≠ Warn → l ≠ Info → l ≠ Error →
        Level.Name l = Itoa l ∧ decimalValue (Level.Name l) = l := by
  refine ⟨rfl, rfl, rfl, rfl, fun l h0 h1 h2 h3 => ?_⟩
  rw [Name_of_other l h0 h1 h2 h3]
  exact ⟨rfl, decimalValue_Itoa l⟩

/-- An instance of C9: the levels 7 and -2 are named `7` and `-2`. -/
theorem Level_Name_values_witness :
    Level.Name 7 = "7".toList ∧ Level.Name (-2) = "-2".toList :=
  ⟨((Level_Name_values.2.2.2.2 7 (by decide) (by decide) (by decide) (by decide)).1).trans
      (by decide),
   ((Level_Name_values.2.2.2.2 (-2) (by decide) (by decide) (by decide) (by decide)).1).trans
      (by decide)⟩

/-- C10: `Level.Formatter` returns the four built-in templates for the canonical levels
and `[<name>] %s` for every other level, which contains neither decorator token; among the
built-ins exactly those of `Info` and `Error` contain `{{suffix}}` and none contains
`{{prefix}}`. -/
theorem Level_Formatter_values :
    Level.Formatter Debug = "[dbg] %s \n".toList
    ∧ Level.Formatter Warn = "[wrn] %s \n".toList
    ∧ Level.Formatter Info = "[inf] %s \x7b\x7bsuffix\x7d\x7d\n".toList
    ∧ Level.Formatter Error = "[err] %s \x7b\x7bsuffix\x7d\x7d\n".toList
    ∧ (∀ l : Level, l ≠ Debug → l ≠ Warn → l ≠ Info → l ≠ Error →
        Level.Formatter l = "[".toList ++ Level.Name l ++ "] %s".toList
        ∧ ¬ suffixToken <:+: Level.Formatter l
        ∧ ¬ prefixToken <:+: Level.Formatter l)
    ∧ (∀ (l : Level) (f : GoString), DefaultFormatterMap l = some f →
        (suffixToken <:+: f ↔ (l = Info ∨ l = Error)) ∧ ¬ prefixToken <:+: f) := by
  refine ⟨rfl, rfl, rfl, rfl, ?_, ?_⟩
  · intro l h0 h1 h2 h3
    have hF : Level.Formatter l = "[".toList ++ Level.Name l ++ "] %s".toList := by
      simp [Level.Formatter, DefaultFormatterMap_none l h0 h1 h2 h3]
    have hopen : '{' ∉ Level.Formatter l := by
      rw [hF]
      intro hc
      simp only [List.mem_append] at hc
      rcases hc with (hc | hc) | hc
      · revert hc; decide
      · exact (Name_plain l _ hc).2.1 rfl
      · revert hc; decide
    exact ⟨hF, token_absent _ _ suffixToken_isToken hopen,
      token_absent _ _ prefixToken_isToken hopen⟩
  · intro l f hf
    unfold DefaultFormatterMap at hf
    split_ifs at hf with h0 h1 h2 h3
    all_goals (obtain rfl := Option.some.inj hf; subst l; decide)

/-- An instance of C10: the template of the unknown level 7 is `[7] %s`. -/
theorem Level_Formatter_values_witness :
    Level.Formatter 7 = "[7] %s".toList :=
  ((Level_Formatter_values.2.2.2.2.1 7 (by decide) (by decide) (by decide) (by decide)).1).trans
    (by decide)

/-! ## Purity of `Format` -/

/-- C11: `Format` is pure with respect to the logger and the world. As a step it returns
the logger and the world it was given (no write, no observer call, no field changed); its
line depends on the logger only through the template entry of the level and the two
decorator texts, so changing the threshold, `Quiet`, the sink or the observer does not
change it, and it renders also on a quiet logger below the threshold; and when each
decorator returns the same text at two calls, the two calls return the same line. -/
theorem Format_pure (ext : FmtExt) (log : Logger) (level : Level) (s : List GoValue)
    (σ : World) :
    (Logger.FormatCall ext log level s σ).2 = (log, σ)
    ∧ (Logger.FormatCall ext log level s σ).1 = Logger.Format ext log σ.now level s
    ∧ (∀ log2 : Logger, log2.formatter level = log.formatter level →
        log2.SuffixFunc σ.now = log.SuffixFunc σ.now →
        log2.PrefixFunc σ.now = log.PrefixFunc σ.now →
        Logger.Format ext log2 σ.now level s = Logger.Format ext log σ.now level s)
    ∧ (∀ (threshold : Level) (q : Bool) (w : Writer) (obs : Option Observer),
        Logger.Format ext
            { log with level := threshold, Quiet := q, writer := w, onLogger := obs }
            σ.now level s
          = Logger.Format ext log σ.now level s)
    ∧ (∀ σ2 : World, log.SuffixFunc σ2.now = log.SuffixFunc σ.now →
        log.PrefixFunc σ2.now = log.PrefixFunc σ.now →
        (Logger.FormatCall ext log level s σ2).1 = (Logger.FormatCall ext log level s σ).1) := by
  refine ⟨rfl, rfl, ?_, fun _ _ _ _ => rfl, ?_⟩
  · intro log2 hf hs hp
    simp only [Logger.Format, hf, hs, hp]
  · intro σ2 hs hp
    simp only [Logger.FormatCall, Logger.Format, hs, hp]

/-- An instance of C11: on the default logger made quiet, whose threshold is `Warn`,
`Format(Debug, "x")` still renders `[dbg] x` and a newline, at two different clock
readings alike. -/
theorem Format_pure_witness :
    Logger.Format noExt (Logger.SetQuiet Log true world0).1 clock0 Debug [GoValue.str "x".toList]
        = "[dbg] x \n".toList
    ∧ (Logger.FormatCall noExt (Logger.SetQuiet Log true world0).1 Debug [GoValue.str "x".toList]
          { world0 with now := ⟨2025, 1, 1, 0, 0, 0⟩ }).1
        = (Logger.FormatCall noExt (Logger.SetQuiet Log true world0).1 Debug
            [GoValue.str "x".toList] world0).1 :=
  ⟨((Format_pure noExt Log Debug [GoValue.str "x".toList] world0).2.2.2.1
      Warn true Stdout none).trans (by decide),
   by decide⟩

/-! ## Per-level methods -/

/-- C13: every per-level method is its generic counterpart bound to the level:
`Debug/Warn/Info/Error(p)` is `Print(level, p)`, `Debugf/...(format, args)` is
`Printf(level, format, args)`, `Printf(level, format, args)` is
`Print(level, Sprintf(format, args))`, and `FDebugf/...(w, format, args)` is the same
filter and rendering with the sink `w` in place of the logger's own: when the line passes,
its only write goes to `w`. -/
theorem per_level_methods (ext : FmtExt) (log : Logger) (σ : World) :
    (∀ p, Logger.Debug ext log p σ = Logger.Print ext log Debug p σ)
    ∧ (∀ p, Logger.Warn ext log p σ = Logger.Print ext log Warn p σ)
    ∧ (∀ p, Logger.Info ext log p σ = Logger.Print ext log Info p σ)
    ∧ (∀ p, Logger.Error ext log p σ = Logger.Print ext log Error p σ)
    ∧ (∀ format args, Logger.Debugf ext log format args σ
        = Logger.Printf ext log Debug format args σ)
    ∧ (∀ format args, Logger.Warnf ext log format args σ
        = Logger.Printf ext log Warn format args σ)
    ∧ (∀ format args, Logger.Infof ext log format args σ
        = Logger.Printf ext log Info format args σ)
    ∧ (∀ format args, Logger.Errorf ext log format args σ
        = Logger.Printf ext log Error format args σ)
    ∧ (∀ level format args, Logger.Printf ext log level format args σ
        = Logger.Print ext log level (GoValue.str (Sprintf ext format args)) σ)
    ∧ (∀ w format args,
        Logger.FDebugf ext log w format args σ
          = Logger.logInterface ext log w Debug (GoValue.str (Sprintf ext format args)) σ
        ∧ Logger.FWarnf ext log w format args σ
          = Logger.logInterface ext log w Warn (GoValue.str (Sprintf ext format args)) σ
        ∧ Logger.FInfof ext log w format args σ
          = Logger.logInterface ext log w Info (GoValue.str (Sprintf ext format args)) σ
        ∧ Logger.FErrorf ext log w format args σ
          = Logger.logInterface ext log w Error (GoValue.str (Sprintf ext format args)) σ)
    ∧ (∀ w level p, log.Quiet = false → log.level ≤ level →
        Logger.logInterface ext log w level p σ
          = (log, σ.after (emitted log w level (Logger.Format ext log σ.now level [p]))))
    ∧ (∀ w level p, (log.Quiet = true ∨ level < log.level) →
        Logger.logInterface ext log w level p σ = (log, σ)) := by
  refine ⟨fun _ => rfl, fun _ => rfl, fun _ => rfl, fun _ => rfl, fun _ _ => rfl,
    fun _ _ => rfl, fun _ _ => rfl, fun _ _ => rfl, fun _ _ _ => rfl,
    fun _ _ _ => ⟨rfl, rfl, rfl, rfl⟩, ?_, ?_⟩
  · intro w level p hq hl
    exact logInterface_pass ext log w level p σ hq hl
  · intro w level p h
    rcases h with h | h
    · exact logInterface_quiet ext log w level p σ h
    · exact logInterface_below ext log w level p σ h

/-- An instance of C13: `Printf(Info, "n=%d", 7)` on the stubbed logger writes
`[inf] n=7 , T` and a newline to standard output, and `FInfof` to writer 3 writes the
same line to writer 3 only. -/
theorem per_level_methods_witness :
    (Logger.Printf noExt stubLogger Info "n=%d".toList [GoValue.int 7] world0).2.trace
        = [Event.write Stdout "[inf] n=7 , T\n".toList]
    ∧ (Logger.FInfof noExt stubLogger 3 "n=%d".toList [GoValue.int 7] world0).2.trace
        = [Event.write 3 "[inf] n=7 , T\n".toList] := by
  have h := per_level_methods noExt stubLogger world0
  refine ⟨?_, ?_⟩
  · rw [h.2.2.2.2.2.2.2.2.1]
    decide
  · rw [(h.2.2.2.2.2.2.2.2.2.1 3 "n=%d".toList [GoValue.int 7]).2.2.1]
    decide

/-! ## Write failures -/

/-- C15: a failing sink is not noticed. When the `Write` of the sink returns an error, an
emission that passes the filter still returns, with the logger unchanged, after exactly one
write attempt of the rendered line, followed by one call of an installed observer with that
line; the result is the same as with a sink that works. -/
theorem write_failure_swallowed (ext : FmtExt) (log : Logger) (w : Writer) (level : Level)
    (s : GoValue) (σ : World) (hq : log.Quiet = false) (hl : log.level ≤ level)
    (hb : σ.broken w = true) :
    (Fprint w (Logger.Format ext log σ.now level [s]) σ).2 = true
    ∧ Logger.logInterface ext log w level s σ
        = (log, σ.after (emitted log w level (Logger.Format ext log σ.now level [s])))
    ∧ (σ.after (emitted log w level (Logger.Format ext log σ.now level [s]))).trace
        = σ.trace ++ Event.write w (Logger.Format ext log σ.now level [s])
            :: (log.onLogger.map fun f =>
                  Event.observe f level (Logger.Format ext log σ.now level [s])).toList
    ∧ (w = log.writer → Logger.Print ext log level s σ
        = (log, σ.after (emitted log w level (Logger.Format ext log σ.now level [s])))) := by
  refine ⟨hb, logInterface_pass ext log w level s σ hq hl, ?_, ?_⟩
  · unfold World.after emitted
    cases log.onLogger <;> rfl
  · intro hw
    subst hw
    exact logInterface_pass ext log log.writer level s σ hq hl

/-- An instance of C15: `Warn("hello")` on the default logger with an observer, when
standard output fails, still makes its one write attempt and then calls the observer. -/
theorem write_failure_swallowed_witness :
    (Logger.logInterface noExt { Log with onLogger := some 5 } Stdout Warn
        (GoValue.str "hello".toList) { world0 with broken := fun _ => true }).2.trace
      = [Event.write Stdout "[wrn] hello \n".toList,
         Event.observe 5 Warn "[wrn] hello \n".toList] := by
  rw [(write_failure_swallowed noExt { Log with onLogger := some 5 } Stdout Warn
    (GoValue.str "hello".toList) { world0 with broken := fun _ => true } rfl (by decide) rfl).2.1]
  decide

/-! ## The clock text -/

theorem toDigitsCore_fuel (f1 : Nat) : ∀ (f2 n : Nat) (ds : List Char), n < f1 → n < f2 →
    Nat.toDigitsCore 10 f1 n ds = Nat.toDigitsCore 10 f2 n ds := by
  induction f1 with
  | zero => intro f2 n ds h; exact absurd h (Nat.not_lt_zero _)
  | succ f1 ih =>
    intro f2 n ds h1 h2
    cases f2 with
    | zero => exact absurd h2 (Nat.not_lt_zero _)
    | succ f2 =>
      unfold Nat.toDigitsCore
      dsimp only
      split
      · rfl
      · rename_i h0
        exact ih f2 _ _ (by omega) (by omega)

theorem toDigitsCore_acc (fuel : Nat) : ∀ (n : Nat) (ds : List Char),
    Nat.toDigitsCore 10 fuel n ds = Nat.toDigitsCore 10 fuel n [] ++ ds := by
  induction fuel with
  | zero => intro n ds; simp [Nat.toDigitsCore]
  | succ fuel ih =>
    intro n ds
    unfold Nat.toDigitsCore
    dsimp only
    split
    · rfl
    · rw [ih _ (_ :: ds), ih _ [_], List.append_assoc]
      rfl

theorem toDigits_small (n : Nat) (h : n < 10) : Nat.toDigits 10 n = [Nat.digitChar n] := by
  unfold Nat.toDigits Nat.toDigitsCore
  have h0 : n / 10 = 0 := by omega
  have h1 : n % 10 = n := by omega
  simp [h0, h1]

theorem toDigits_step (n : Nat) (h : 10 ≤ n) :
    Nat.toDigits 10 n = Nat.toDigits 10 (n / 10) ++ [Nat.digitChar (n % 10)] := by
  have h0 : ¬ n / 10 = 0 := by omega
  have e : Nat.toDigits 10 n
      = Nat.toDigitsCore 10 n (n / 10) [Nat.digitChar (n % 10)] := by
    show Nat.toDigitsCore 10 (n + 1) n [] = _
    rw [Nat.toDigitsCore]
    simp [h0]
  rw [e, toDigitsCore_acc, toDigitsCore_fuel n (n / 10 + 1) (n / 10) [] (by omega) (by omega)]
  rfl

theorem fixedDigits_zero (w : Nat) : fixedDigits w 0 = List.replicate w '0' := by
  induction w with
  | zero => rfl
  | succ w ih =>
    rw [fixedDigits, Nat.zero_div, ih, List.replicate_succ']
    rfl

theorem toDigits_length_le (w : Nat) : ∀ n, n < 10 ^ (w + 1) →
    (Nat.toDigits 10 n).length ≤ w + 1 := by
  induction w with
  | zero => intro n h; rw [toDigits_small n (by simpa using h)]; simp
  | succ w ih =>
    intro n h
    by_cases hn : n < 10
    · rw [toDigits_small n hn]; simp
    · rw [toDigits_step n (by omega)]
      have : n / 10 < 10 ^ (w + 1) := by
        rw [Nat.div_lt_iff_lt_mul (by decide)]
        rw [pow_succ] at h
        exact h
      have := ih _ this
      simp
      omega

/-- Zero padding to a width prints the digits of the number position by position. -/
theorem zeroPad_fixedDigits (w : Nat) : ∀ n, n < 10 ^ (w + 1) →
    zeroPad (w + 1) n = fixedDigits (w + 1) n := by
  induction w with
  | zero =>
    intro n h
    have hn : n < 10 := by simpa using h
    have h1 : n % 10 = n := by omega
    simp [zeroPad, toDigits_small n hn, fixedDigits, h1]
  | succ w ih =>
    intro n h
    by_cases hn : n < 10
    · have h0 : n / 10 = 0 := by omega
      have h1 : n % 10 = n := by omega
      rw [fixedDigits, h0, fixedDigits_zero, h1]
      simp [zeroPad, toDigits_small n hn]
    · have hdiv : n / 10 < 10 ^ (w + 1) := by
        rw [Nat.div_lt_iff_lt_mul (by decide)]
        rw [pow_succ] at h
        exact h
      have hlen := toDigits_length_le w _ hdiv
      rw [fixedDigits, ← ih _ hdiv]
      unfold zeroPad
      rw [toDigits_step n (by omega)]
      simp only [List.length_append, List.length_singleton]
      rw [← List.append_assoc]
      congr 2
      congr 1
      omega

theorem zeroPad_two (n : Nat) (h : n < 100) :
    zeroPad 2 n = [Nat.digitChar (n / 10), Nat.digitChar (n % 10)] := by
  rw [zeroPad_fixedDigits 1 n (by simpa using h)]
  have : n / 10 % 10 = n / 10 := by omega
  simp [fixedDigits, this]

theorem zeroPad_four (n : Nat) (h : n < 10000) :
    zeroPad 4 n = [Nat.digitChar (n / 1000), Nat.digitChar (n / 100 % 10),
      Nat.digitChar (n / 10 % 10), Nat.digitChar (n % 10)] := by
  rw [zeroPad_fixedDigits 3 n (by simpa using h)]
  have h1 : n / 10 / 10 / 10 % 10 = n / 1000 := by omega
  have h2 : n / 10 / 10 % 10 = n / 100 % 10 := by omega
  simp [fixedDigits, h1, h2]

/-- The text of `getCurtime` for a clock within the calendar ranges: four digits of the
year, month, day, hour (0 to 23), minute and second with two digits each, separated as in
`YYYY-MM-DD HH:MM.SS`. -/
theorem getCurtime_text (now : Time) (hy : now.year < 10000) (hmo : now.month < 100)
    (hd : now.day < 100) (hh : now.hour < 100) (hmi : now.minute < 100)
    (hs : now.second < 100) :
    getCurtime now
      = [Nat.digitChar (now.year / 1000), Nat.digitChar (now.year / 100 % 10),
          Nat.digitChar (now.year / 10 % 10), Nat.digitChar (now.year % 10), '-',
          Nat.digitChar (now.month / 10), Nat.digitChar (now.month % 10), '-',
          Nat.digitChar (now.day / 10), Nat.digitChar (now.day % 10), ' ',
          Nat.digitChar (now.hour / 10), Nat.digitChar (now.hour % 10), ':',
          Nat.digitChar (now.minute / 10), Nat.digitChar (now.minute % 10), '.',
          Nat.digitChar (now.second / 10), Nat.digitChar (now.second % 10)] := by
  unfold getCurtime
  rw [zeroPad_four _ hy, zeroPad_two _ hmo, zeroPad_two _ hd, zeroPad_two _ hh,
    zeroPad_two _ hmi, zeroPad_two _ hs]
  rfl

/-! ## The factory and the mutators -/

/-- C16: `NewLogger(l)` has threshold `l`, `Quiet = false`, no observer, standard output
as its sink, the built-in template table, a leading decorator that returns the empty
string and a suffix decorator that returns `, ` followed by the text of the clock, which
for every clock within the calendar ranges is the year in four digits, then month, day,
hour (0 to 23), minute and second in two digits each, laid out as `YYYY-MM-DD HH:MM.SS`;
the package logger `Log` is `NewLogger(Warn)`, with threshold `Warn`. -/
theorem NewLogger_defaults (l : Level) (now : Time) :
    (NewLogger l).level = l
    ∧ (NewLogger l).Quiet = false
    ∧ (NewLogger l).onLogger = none
    ∧ (NewLogger l).writer = Stdout
    ∧ (NewLogger l).formatter = DefaultFormatterMap
    ∧ (NewLogger l).levels = Levels
    ∧ (NewLogger l).PrefixFunc now = []
    ∧ (NewLogger l).SuffixFunc now = ", ".toList ++ getCurtime now
    ∧ Log = NewLogger Warn
    ∧ Log.level = Warn
    ∧ getCurtime clock0 = "2024-03-09 07:05.01".toList
    ∧ (now.year < 10000 → now.month < 100 → now.day < 100 → now.hour < 100 →
        now.minute < 100 → now.second < 100 →
        (NewLogger l).SuffixFunc now
          = [',', ' ',
              Nat.digitChar (now.year / 1000), Nat.digitChar (now.year / 100 % 10),
              Nat.digitChar (now.year / 10 % 10), Nat.digitChar (now.year % 10), '-',
              Nat.digitChar (now.month / 10), Nat.digitChar (now.month % 10), '-',
              Nat.digitChar (now.day / 10), Nat.digitChar (now.day % 10), ' ',
              Nat.digitChar (now.hour / 10), Nat.digitChar (now.hour % 10), ':',
              Nat.digitChar (now.minute / 10), Nat.digitChar (now.minute % 10), '.',
              Nat.digitChar (now.second / 10), Nat.digitChar (now.second % 10)])
    ∧ (∀ k, k < 10 → (Nat.digitChar k).toNat = '0'.toNat + k) := by
  refine ⟨rfl, rfl, rfl, rfl, rfl, rfl, rfl, rfl, rfl, rfl, by decide, ?_, by decide⟩
  intro hy hmo hd hh hmi hs
  show ", ".toList ++ getCurtime now = _
  rw [getCurtime_text now hy hmo hd hh hmi hs]
  rfl

/-- An instance of C16: at 23:59:58 on the last day of 1999 the suffix decorator of a new
logger returns `, 1999-12-31 23:59.58`, and at 07:05:01 on the ninth of March 2024
`, 2024-03-09 07:05.01`. -/
theorem NewLogger_defaults_witness :
    (NewLogger Warn).SuffixFunc ⟨1999, 12, 31, 23, 59, 58⟩ = ", 1999-12-31 23:59.58".toList
    ∧ (NewLogger Warn).SuffixFunc clock0 = ", 2024-03-09 07:05.01".toList :=
  ⟨((NewLogger_defaults Warn ⟨1999, 12, 31, 23, 59, 58⟩).2.2.2.2.2.2.2.2.2.2.2.1
      (by decide) (by decide) (by decide) (by decide) (by decide) (by decide)).trans (by decide),
   ((NewLogger_defaults Warn clock0).2.2.2.2.2.2.2.2.2.2.2.1
      (by decide) (by decide) (by decide) (by decide) (by decide) (by decide)).trans (by decide)⟩

/-- C19: each mutator sets its own field and nothing else, and leaves the world as it is:
`SetLevel` the threshold, `SetQuiet` the flag, `SetOutput` the sink, `SetFormatter` the
whole template table; and after `SetLevel(Debug)` on the default logger, `Debug("x")`
writes exactly `[dbg] x` and a newline to standard output. -/
theorem mutators_frame (ext : FmtExt) (log : Logger) (σ : World) :
    (∀ l, (Logger.SetLevel log l σ).2 = σ
        ∧ (Logger.SetLevel log l σ).1.level = l
        ∧ (Logger.SetLevel log l σ).1.Quiet = log.Quiet
        ∧ (Logger.SetLevel log l σ).1.onLogger = log.onLogger
        ∧ (Logger.SetLevel log l σ).1.writer = log.writer
        ∧ (Logger.SetLevel log l σ).1.levels = log.levels
        ∧ (Logger.SetLevel log l σ).1.formatter = log.formatter
        ∧ (Logger.SetLevel log l σ).1.SuffixFunc = log.SuffixFunc
        ∧ (Logger.SetLevel log l σ).1.PrefixFunc = log.PrefixFunc)
    ∧ (∀ q, (Logger.SetQuiet log q σ).2 = σ
        ∧ (Logger.SetQuiet log q σ).1.Quiet = q
        ∧ (Logger.SetQuiet log q σ).1.level = log.level
        ∧ (Logger.SetQuiet log q σ).1.onLogger = log.onLogger
        ∧ (Logger.SetQuiet log q σ).1.writer = log.writer
        ∧ (Logger.SetQuiet log q σ).1.levels = log.levels
        ∧ (Logger.SetQuiet log q σ).1.formatter = log.formatter
        ∧ (Logger.SetQuiet log q σ).1.SuffixFunc = log.SuffixFunc
        ∧ (Logger.SetQuiet log q σ).1.PrefixFunc = log.PrefixFunc)
    ∧ (∀ w, (Logger.SetOutput log w σ).2 = σ
        ∧ (Logger.SetOutput log w σ).1.writer = w
        ∧ (Logger.SetOutput log w σ).1.level = log.level
        ∧ (Logger.SetOutput log w σ).1.Quiet = log.Quiet
        ∧ (Logger.SetOutput log w σ).1.onLogger = log.onLogger
        ∧ (Logger.SetOutput log w σ).1.levels = log.levels
        ∧ (Logger.SetOutput log w σ).1.formatter = log.formatter
        ∧ (Logger.SetOutput log w σ).1.SuffixFunc = log.SuffixFunc
        ∧ (Logger.SetOutput log w σ).1.PrefixFunc = log.PrefixFunc)
    ∧ (∀ m, (Logger.SetFormatter log m σ).2 = σ
        ∧ (Logger.SetFormatter log m σ).1.formatter = m
        ∧ (Logger.SetFormatter log m σ).1.level = log.level
        ∧ (Logger.SetFormatter log m σ).1.Quiet = log.Quiet
        ∧ (Logger.SetFormatter log m σ).1.onLogger = log.onLogger
        ∧ (Logger.SetFormatter log m σ).1.writer = log.writer
        ∧ (Logger.SetFormatter log m σ).1.levels = log.levels
        ∧ (Logger.SetFormatter log m σ).1.SuffixFunc = log.SuffixFunc
        ∧ (Logger.SetFormatter log m σ).1.PrefixFunc = log.PrefixFunc)
    ∧ Logger.Debug ext (Logger.SetLevel Log Debug σ).1 (GoValue.str "x".toList) σ
        = ((Logger.SetLevel Log Debug σ).1,
            σ.after [Event.write Stdout "[dbg] x \n".toList]) := by
  refine ⟨fun _ => ⟨rfl, rfl, rfl, rfl, rfl, rfl, rfl, rfl, rfl⟩,
    fun _ => ⟨rfl, rfl, rfl, rfl, rfl, rfl, rfl, rfl, rfl⟩,
    fun _ => ⟨rfl, rfl, rfl, rfl, rfl, rfl, rfl, rfl, rfl⟩,
    fun _ => ⟨rfl, rfl, rfl, rfl, rfl, rfl, rfl, rfl, rfl⟩, ?_⟩
  have hline : Logger.Format ext (Logger.SetLevel Log Debug σ).1 σ.now Debug
      [GoValue.str "x".toList] = "[dbg] x \n".toList := by
    rw [Format_slot ext (Logger.SetLevel Log Debug σ).1 σ.now Debug "[dbg] ".toList
      " \n".toList "x".toList rfl (by decide) (by decide)]
    rw [Replace_absent _ _ _ suffixToken_isToken (by decide),
      Replace_absent _ _ _ prefixToken_isToken (by decide)]
    rfl
  have h := logInterface_pass ext (Logger.SetLevel Log Debug σ).1 Stdout Debug
    (GoValue.str "x".toList) σ rfl (le_refl _)
  rw [hline] at h
  exact h

/-! ## `Println` and templates with several slots -/

theorem joinWith_cons_cons (sep s t : GoString) (r : List GoString) :
    joinWith sep (s :: t :: r) = s ++ sep ++ joinWith sep (t :: r) := rfl

theorem intercalate_eq_joinWith (sep : GoString) (xs : List GoString) :
    List.intercalate sep xs = joinWith sep xs := by
  induction xs with
  | nil => rfl
  | cons x xs ih =>
    cases xs with
    | nil => simp [List.intercalate, joinWith]
    | cons y ys =>
      have h : List.intercalate sep (x :: y :: ys) = x ++ sep ++ List.intercalate sep (y :: ys) := by
        simp [List.intercalate, List.intersperse]
      rw [h, ih, joinWith_cons_cons]

theorem Sprintln_strings (args : List GoString) :
    Sprintln (args.map GoValue.str) = joinWith " ".toList args ++ "\n".toList := by
  unfold Sprintln
  rw [intercalate_eq_joinWith, List.map_map]
  have : (GoValue.print ∘ GoValue.str) = id := rfl
  rw [this, List.map_id]

/-- C14: for a level that passes the filter and string arguments `a1 .. an`,
`Println(w, L, a1, .., an)` leaves the logger unchanged and writes once to the
caller's sink `w` (not to the logger's own) exactly `Format(L, payload)`, where the payload
is the arguments joined by single spaces and followed by a newline; an installed observer
is then called with that line. -/
theorem Println_line (ext : FmtExt) (log : Logger) (w : Writer) (level : Level)
    (args : List GoString) (σ : World) (hq : log.Quiet = false) (hl : log.level ≤ level) :
    Logger.Println ext log w level (args.map GoValue.str) σ
      = (log, σ.after (emitted log w level
          (Logger.Format ext log σ.now level
            [GoValue.str (joinWith " ".toList args ++ "\n".toList)]))) := by
  unfold Logger.Println
  rw [logInterface_pass ext log w level _ σ hq hl, Sprintln_strings]

/-- An instance of C14: with the built-in `Warn` template, `Println(w, Warn, "a", "b")`
writes `[wrn] a b`, a newline, a space and the template's newline to `w`. -/
theorem Println_line_witness :
    (Logger.Println noExt Log 3 Warn (["a".toList, "b".toList].map GoValue.str) world0).2.trace
      = [Event.write 3 "[wrn] a b\n \n".toList] := by
  rw [Println_line noExt Log 3 Warn ["a".toList, "b".toList] world0 rfl (by decide)]
  decide

theorem doPrintf_spent (ext : FmtExt) (v : GoValue) (segs : List GoString)
    (hne : segs ≠ []) (h : ∀ s ∈ segs, ∀ c ∈ s, c ≠ '%') :
    doPrintf ext [v] (joinWith "%s".toList segs) 1
      = joinWith "%!s(MISSING)".toList segs := by
  induction segs with
  | nil => exact absurd rfl hne
  | cons s rest ih =>
    have hs : ∀ c ∈ s, c ≠ '%' := h s (List.mem_cons_self _ _)
    cases rest with
    | nil =>
      have := doPrintf_append_plain ext [v] s [] 1 hs
      rw [List.append_nil] at this
      simp [joinWith, this, doPrintf_nil, extraArgs]
    | cons s2 rest2 =>
      have ih2 := ih (by simp) (fun t ht => h t (List.mem_cons_of_mem _ ht))
      rw [joinWith_cons_cons, joinWith_cons_cons, List.append_assoc,
        doPrintf_append_plain ext [v] s _ 1 hs]
      show s ++ doPrintf ext [v] ('%' :: 's' :: joinWith "%s".toList (s2 :: rest2)) 1 = _
      rw [doPrintf_verb_s, ih2]
      simp [missingArg]

/-- C17: when the template selected for the level has two or more `%s` slots separated
by text free of `%`, `Format` of a string payload `P` puts `P` into the first slot and the
report `%!s(MISSING)` into every further slot, and applies the two decorator passes to
that line, without failing. -/
theorem Format_many_slots (ext : FmtExt) (log : Logger) (now : Time) (level : Level)
    (s0 s1 : GoString) (rest : List GoString) (P : GoString)
    (hT : selectTemplate log.formatter level = joinWith "%s".toList (s0 :: s1 :: rest))
    (h : ∀ s ∈ s0 :: s1 :: rest, '%' ∉ s) :
    Logger.Format ext log now level [GoValue.str P]
      = Replace (Replace (s0 ++ P ++ joinWith "%!s(MISSING)".toList (s1 :: rest))
          suffixToken (log.SuffixFunc now)) prefixToken (log.PrefixFunc now) := by
  have h0 : ∀ c ∈ s0, c ≠ '%' := fun c hc e => h s0 (List.mem_cons_self _ _) (e ▸ hc)
  have hrest : ∀ s ∈ s1 :: rest, ∀ c ∈ s, c ≠ '%' :=
    fun s hs c hc e => h s (List.mem_cons_of_mem _ hs) (e ▸ hc)
  rw [Format_eq_render, hT]
  congr 2
  unfold Sprintf
  rw [joinWith_cons_cons, List.append_assoc, doPrintf_append_plain ext _ s0 _ 0 h0]
  show s0 ++ doPrintf ext [GoValue.str P] ('%' :: 's' :: joinWith "%s".toList (s1 :: rest)) 0 = _
  rw [doPrintf_verb_s]
  simp only [List.get?_cons_zero]
  rw [doPrintf_spent ext _ _ (by simp) hrest]
  simp [printArg]

/-- An instance of C17: the template `%s|%s` with the payload `a` renders
`a|%!s(MISSING)`. -/
theorem Format_many_slots_witness :
    Logger.Format noExt twoSlotLogger clock0 Warn [GoValue.str "a".toList]
      = "a|%!s(MISSING)".toList :=
  (Format_many_slots noExt twoSlotLogger clock0 Warn [] "|".toList [[]] "a".toList
    (by decide) (by decide)).trans (by decide)

/-! ## Decorator passes on the parts of a line -/

theorem prefix_of_append_sep (old x y : GoString) (sep : Char) (hsep : sep ∉ old)
    (h : old <+: x ++ sep :: y) : old <+: x := by
  rcases List.prefix_or_prefix_of_prefix h (List.prefix_append x (sep :: y)) with hx | hx
  · exact hx
  · obtain ⟨z, hz⟩ := hx
    rw [← hz] at h
    have hzy : z <+: sep :: y := (List.prefix_append_right_inj x).mp h
    cases z with
    | nil => rw [List.append_nil] at hz; rw [hz]
    | cons c z =>
      exfalso
      obtain ⟨t, ht⟩ := hzy
      have hc : c = sep := (List.cons.inj ht).1
      subst hc
      exact hsep (hz ▸ (by simp))

theorem replaceLoop_separator (old new y : GoString) (sep : Char) (hold : old ≠ [])
    (hsep : sep ∉ old) : ∀ (x : GoString) (k : Nat), k ≤ x.length →
      replaceLoop old new k (x ++ sep :: y)
        = replaceLoop old new k x ++ sep :: replaceLoop old new 0 y := by
  intro x
  induction x with
  | nil =>
    intro k hk
    have hk0 : k = 0 := by simpa using hk
    subst hk0
    have hp : old.isPrefixOf (sep :: y) = false := by
      rw [Bool.eq_false_iff]
      intro hp
      have := List.isPrefixOf_iff_prefix.mp hp
      cases old with
      | nil => exact hold rfl
      | cons h t =>
        obtain ⟨u, hu⟩ := this
        have : h = sep := (List.cons.inj hu).1
        exact hsep (this ▸ List.mem_cons_self _ _)
    simp [replaceLoop, hp]
  | cons c x ih =>
    intro k hk
    cases k with
    | succ k =>
      have hk2 : k ≤ x.length := by simpa using hk
      simpa [replaceLoop] using ih k hk2
    | zero =>
      rw [List.cons_append, replaceLoop, replaceLoop]
      by_cases hp : old.isPrefixOf (c :: (x ++ sep :: y)) = true
      · have hpx : old <+: c :: x := by
          apply prefix_of_append_sep old (c :: x) y sep hsep
          simpa using List.isPrefixOf_iff_prefix.mp hp
        have hp2 : old.isPrefixOf (c :: x) = true := List.isPrefixOf_iff_prefix.mpr hpx
        have hlen : old.length - 1 ≤ x.length := by
          have := hpx.length_le
          simp at this
          omega
        rw [if_pos hp, if_pos hp2, ih _ hlen, List.append_assoc]
      · have hp2 : ¬ old.isPrefixOf (c :: x) = true := by
          intro h2
          apply hp
          rw [List.isPrefixOf_iff_prefix] at h2 ⊢
          exact h2.trans (by simp)
        rw [if_neg hp, if_neg hp2, ih 0 (Nat.zero_le _), List.cons_append]

theorem Replace_nil (old new : GoString) (h : IsToken old) : Replace [] old new = [] := by
  rw [Replace_token _ _ _ h]; rfl

/-- A character that does not occur in the token splits the line into two parts that are
scanned independently. -/
theorem Replace_separator (old new x y : GoString) (sep : Char) (h : IsToken old)
    (hsep : sep ∉ old) :
    Replace (x ++ sep :: y) old new = Replace x old new ++ sep :: Replace y old new := by
  rw [Replace_token _ _ _ h, Replace_token _ _ _ h, Replace_token _ _ _ h]
  obtain ⟨mid, e, -⟩ := h
  exact replaceLoop_separator old new y sep (by simp [e]) hsep x 0 (Nat.zero_le _)

theorem clearChar_spec (c : Char) (h : clearChar c = true) :
    c ∉ suffixToken ∧ c ∉ prefixToken := by
  unfold clearChar at h
  simpa using h

theorem decorate_nil (sfx pfx : GoString) : decorate sfx pfx [] = [] := by
  unfold decorate
  rw [Replace_nil _ _ suffixToken_isToken, Replace_nil _ _ prefixToken_isToken]

theorem decorate_separator (sfx pfx x y : GoString) (sep : Char) (h : clearChar sep = true) :
    decorate sfx pfx (x ++ sep :: y) = decorate sfx pfx x ++ sep :: decorate sfx pfx y := by
  obtain ⟨hs, hp⟩ := clearChar_spec sep h
  unfold decorate
  rw [Replace_separator _ _ _ _ _ suffixToken_isToken hs,
    Replace_separator _ _ _ _ _ prefixToken_isToken hp]

theorem decorate_append_right (sfx pfx x b : GoString) (hb : startsClear b = true) :
    decorate sfx pfx (x ++ b) = decorate sfx pfx x ++ decorate sfx pfx b := by
  cases b with
  | nil => rw [List.append_nil, decorate_nil, List.append_nil]
  | cons c b =>
    have hc : clearChar c = true := hb
    have h1 := decorate_separator sfx pfx x b c hc
    have h2 := decorate_separator sfx pfx [] b c hc
    rw [List.nil_append, decorate_nil, List.nil_append] at h2
    rw [h1, h2]

theorem decorate_append_left (sfx pfx a y : GoString) (ha : endsClear a = true) :
    decorate sfx pfx (a ++ y) = decorate sfx pfx a ++ decorate sfx pfx y := by
  rcases List.eq_nil_or_concat a with rfl | ⟨a0, l, rfl⟩
  · rw [List.nil_append, decorate_nil, List.nil_append]
  · have hl : clearChar l = true := by
      unfold endsClear at ha
      rw [List.concat_eq_append, List.reverse_append] at ha
      exact ha
    rw [List.concat_eq_append]
    have h1 := decorate_separator sfx pfx a0 y l hl
    have h2 := decorate_separator sfx pfx a0 [] l hl
    rw [decorate_nil] at h2
    rw [List.append_assoc, List.singleton_append, h1, h2, List.append_assoc,
      List.singleton_append]

theorem decorate_absent (sfx pfx x : GoString) (hs : ¬ suffixToken <:+: x)
    (hp : ¬ prefixToken <:+: x) : decorate sfx pfx x = x := by
  unfold decorate
  rw [Replace_absent _ _ _ suffixToken_isToken hs, Replace_absent _ _ _ prefixToken_isToken hp]

/-- Rendering under a template whose slot is delimited on both sides: the two decorator
passes act on the text before the slot, on the payload and on the text after the slot
independently. -/
theorem Format_parts (ext : FmtExt) (log : Logger) (now : Time) (level : Level)
    (a b P : GoString) (hT : selectTemplate log.formatter level = a ++ "%s".toList ++ b)
    (ha : '%' ∉ a) (hb : '%' ∉ b) (hac : endsClear a = true) (hbc : startsClear b = true) :
    Logger.Format ext log now level [GoValue.str P]
      = decorate (log.SuffixFunc now) (log.PrefixFunc now) a
        ++ decorate (log.SuffixFunc now) (log.PrefixFunc now) P
        ++ decorate (log.SuffixFunc now) (log.PrefixFunc now) b := by
  rw [Format_slot ext log now level a b P hT ha hb]
  show decorate _ _ (a ++ P ++ b) = _
  rw [decorate_append_right _ _ _ _ hbc, decorate_append_left _ _ _ _ hac]

/-! ## The end-to-end scenarios -/

/-- C12, as the claim words it, fails for the payload `{{suffix}}`: on the stubbed
logger `Warn` writes `[wrn] , T` and a newline, with the token replaced, and not the
payload between `[wrn] ` and the template's tail. -/
theorem builtin_lines_counterexample :
    (Logger.Warn noExt stubLogger (GoValue.str suffixToken) world0).2.trace
        = [Event.write Stdout "[wrn] , T \n".toList]
    ∧ (Logger.Warn noExt stubLogger (GoValue.str suffixToken) world0).2.trace
        ≠ [Event.write Stdout ("[wrn] ".toList ++ suffixToken ++ " \n".toList)] := by
  decide

/-- C12, amended: on a logger with the built-in templates, threshold `Warn`,
`Quiet = false`, a leading decorator returning the empty string and a suffix decorator
returning `, T`, for every string payload `P` that contains neither `{{suffix}}` nor
`{{prefix}}`: `Warn(P)` writes exactly `[wrn] P` followed by a space and a newline,
`Info(P)` exactly `[inf] P , T` and a newline, `Error(P)` exactly `[err] P , T` and a
newline, each with one write to the logger's sink. -/
theorem builtin_lines (ext : FmtExt) (log : Logger) (σ : World) (P : GoString)
    (hf : log.formatter = DefaultFormatterMap) (hl : log.level = Warn)
    (hq : log.Quiet = false) (hp : log.PrefixFunc σ.now = [])
    (hs : log.SuffixFunc σ.now = ", T".toList)
    (hPs : ¬ suffixToken <:+: P) (hPp : ¬ prefixToken <:+: P) :
    Logger.Warn ext log (GoValue.str P) σ
        = (log, σ.after (emitted log log.writer Warn ("[wrn] ".toList ++ P ++ " \n".toList)))
    ∧ Logger.Info ext log (GoValue.str P) σ
        = (log, σ.after (emitted log log.writer Info ("[inf] ".toList ++ P ++ " , T\n".toList)))
    ∧ Logger.Error ext log (GoValue.str P) σ
        = (log, σ.after (emitted log log.writer Error ("[err] ".toList ++ P ++ " , T\n".toList)))
    := by
  have hP : decorate ", T".toList [] P = P := decorate_absent _ _ P hPs hPp
  have hW : Logger.Format ext log σ.now Warn [GoValue.str P]
      = "[wrn] ".toList ++ P ++ " \n".toList := by
    rw [Format_parts ext log σ.now Warn "[wrn] ".toList " \n".toList P (by rw [hf]; rfl)
      (by decide) (by decide) (by decide) (by decide), hs, hp, hP]
    rfl
  have hI : Logger.Format ext log σ.now Info [GoValue.str P]
      = "[inf] ".toList ++ P ++ " , T\n".toList := by
    rw [Format_parts ext log σ.now Info "[inf] ".toList " \x7b\x7bsuffix\x7d\x7d\n".toList P
      (by rw [hf]; rfl) (by decide) (by decide) (by decide) (by decide), hs, hp, hP]
    rfl
  have hE : Logger.Format ext log σ.now Error [GoValue.str P]
      = "[err] ".toList ++ P ++ " , T\n".toList := by
    rw [Format_parts ext log σ.now Error "[err] ".toList " \x7b\x7bsuffix\x7d\x7d\n".toList P
      (by rw [hf]; rfl) (by decide) (by decide) (by decide) (by decide), hs, hp, hP]
    rfl
  refine ⟨?_, ?_, ?_⟩
  · rw [← hW]
    exact logInterface_pass ext log log.writer Warn _ σ hq (by rw [hl])
  · rw [← hI]
    exact logInterface_pass ext log log.writer Info _ σ hq (by rw [hl]; decide)
  · rw [← hE]
    exact logInterface_pass ext log log.writer Error _ σ hq (by rw [hl]; decide)

/-- An instance of the amended C12: the scenarios `Warn("hello")`, `Info("hello")` and
`Error("boom")` on the stubbed logger. -/
theorem builtin_lines_witness :
    (Logger.Warn noExt stubLogger (GoValue.str "hello".toList) world0).2.trace
        = [Event.write Stdout "[wrn] hello \n".toList]
    ∧ (Logger.Info noExt stubLogger (GoValue.str "hello".toList) world0).2.trace
        = [Event.write Stdout "[inf] hello , T\n".toList]
    ∧ (Logger.Error noExt stubLogger (GoValue.str "boom".toList) world0).2.trace
        = [Event.write Stdout "[err] boom , T\n".toList] := by
  have h1 := builtin_lines noExt stubLogger world0 "hello".toList rfl rfl rfl rfl rfl
    (by decide) (by decide)
  have h2 := builtin_lines noExt stubLogger world0 "boom".toList rfl rfl rfl rfl rfl
    (by decide) (by decide)
  rw [h1.1, h1.2.1, h2.2.2]
  decide

/-! ## Tokens in the payload -/

/-- C20, as the claim words it, fails: on the stubbed logger, whose decorator texts
contain no token, the payload `{{pre{{prefix}}fix}}` renders with a `{{prefix}}` left in
the line, whereas the payload with its tokens replaced first, `{{prefix}}`, renders
without it. -/
theorem Format_payload_tokens_counterexample :
    ¬ suffixToken <:+: stubLogger.SuffixFunc clock0
    ∧ ¬ prefixToken <:+: stubLogger.SuffixFunc clock0
    ∧ ¬ suffixToken <:+: stubLogger.PrefixFunc clock0
    ∧ ¬ prefixToken <:+: stubLogger.PrefixFunc clock0
    ∧ decorate (stubLogger.SuffixFunc clock0) (stubLogger.PrefixFunc clock0)
        "\x7b\x7bpre\x7b\x7bprefix\x7d\x7dfix\x7d\x7d".toList = prefixToken
    ∧ Logger.Format noExt stubLogger clock0 Warn
        [GoValue.str "\x7b\x7bpre\x7b\x7bprefix\x7d\x7dfix\x7d\x7d".toList]
        = "[wrn] \x7b\x7bprefix\x7d\x7d \n".toList
    ∧ Logger.Format noExt stubLogger clock0 Warn [GoValue.str prefixToken]
        = "[wrn]  \n".toList := by
  decide

/-- C20, amended: when the template selected for the level is `a ++ "%s" ++ b` with no
`%` in `a` or `b`, `a` empty or ending and `b` empty or beginning with a character of
neither token, `Format` of a string payload `P` is the decorated `a`, then `P'`, then the
decorated `b`, where `P'` is `P` with its `{{suffix}}` and then its `{{prefix}}`
occurrences replaced by the decorator texts: tokens written in the payload are
substituted; and `Format(L, P')` equals `Format(L, P)` whenever `P'` itself contains
neither token. -/
theorem Format_payload_tokens (ext : FmtExt) (log : Logger) (now : Time) (level : Level)
    (a b P : GoString) (hT : selectTemplate log.formatter level = a ++ "%s".toList ++ b)
    (ha : '%' ∉ a) (hb : '%' ∉ b) (hac : endsClear a = true) (hbc : startsClear b = true) :
    Logger.Format ext log now level [GoValue.str P]
        = Replace (Replace a suffixToken (log.SuffixFunc now)) prefixToken (log.PrefixFunc now)
          ++ Replace (Replace P suffixToken (log.SuffixFunc now)) prefixToken (log.PrefixFunc now)
          ++ Replace (Replace b suffixToken (log.SuffixFunc now)) prefixToken (log.PrefixFunc now)
    ∧ (¬ suffixToken <:+: Replace (Replace P suffixToken (log.SuffixFunc now)) prefixToken
            (log.PrefixFunc now) →
        ¬ prefixToken <:+: Replace (Replace P suffixToken (log.SuffixFunc now)) prefixToken
            (log.PrefixFunc now) →
        Logger.Format ext log now level
            [GoValue.str (Replace (Replace P suffixToken (log.SuffixFunc now)) prefixToken
              (log.PrefixFunc now))]
          = Logger.Format ext log now level [GoValue.str P]) := by
  refine ⟨Format_parts ext log now level a b P hT ha hb hac hbc, fun hs hp => ?_⟩
  rw [Format_parts ext log now level a b P hT ha hb hac hbc,
    Format_parts ext log now level a b _ hT ha hb hac hbc]
  have := decorate_absent (log.SuffixFunc now) (log.PrefixFunc now) _ hs hp
  unfold decorate at this ⊢
  rw [this]

/-- An instance of the amended C20: with the built-in `Warn` template and the suffix
`, T`, the payload `{{suffix}}` renders as `[wrn] , T` followed by a space and a newline,
the same line as for the payload `, T`. -/
theorem Format_payload_tokens_witness :
    Logger.Format noExt stubLogger clock0 Warn [GoValue.str suffixToken]
        = "[wrn] , T \n".toList
    ∧ Logger.Format noExt stubLogger clock0 Warn [GoValue.str ", T".toList]
        = Logger.Format noExt stubLogger clock0 Warn [GoValue.str suffixToken] :=
  ⟨((Format_payload_tokens noExt stubLogger clock0 Warn "[wrn] ".toList " \n".toList
      suffixToken rfl (by decide) (by decide) (by decide) (by decide)).1).trans (by decide),
   (Format_payload_tokens noExt stubLogger clock0 Warn "[wrn] ".toList " \n".toList
      suffixToken rfl (by decide) (by decide) (by decide) (by decide)).2
      (by decide) (by decide)⟩

/-! ## Templates made of text and tokens -/

theorem assemble_cons (p : Piece) (ps : List Piece) :
    assemble (p :: ps) = p.source ++ assemble ps := by
  simp [assemble]

theorem fillPieces_cons (sfx pfx : GoString) (p : Piece) (ps : List Piece) :
    fillPieces sfx pfx (p :: ps) = p.filled sfx pfx ++ fillPieces sfx pfx ps := by
  simp [fillPieces]

theorem textOk_spec (s : GoString) (h : Piece.textOk (Piece.text s) = true) :
    '%' ∉ s ∧ '{' ∉ s := by
  unfold Piece.textOk at h
  rw [List.all_eq_true] at h
  constructor
  · intro hc
    have := h _ hc
    simp at this
  · intro hc
    have := h _ hc
    simp at this

/-- The suffix pass steps over a `{{prefix}}` token. -/
theorem Replace_suffix_over_prefixToken (new r : GoString) :
    Replace (prefixToken ++ r) suffixToken new = prefixToken ++ Replace r suffixToken new := by
  rw [Replace_token _ _ _ suffixToken_isToken, Replace_token _ _ _ suffixToken_isToken]
  simp [replaceLoop, suffixToken, prefixToken, List.isPrefixOf]

/-- The suffix pass on a line that begins with pieces fills their suffix tokens, keeps
the rest of them and goes on behind them. -/
theorem Replace_suffix_pieces (sfx : GoString) (ps : List Piece) (r : GoString)
    (h : ps.all Piece.textOk = true) :
    Replace (assemble ps ++ r) suffixToken sfx
      = fillPieces sfx prefixToken ps ++ Replace r suffixToken sfx := by
  induction ps with
  | nil => rfl
  | cons p ps ih =>
    rw [List.all_cons, Bool.and_eq_true] at h
    rw [assemble_cons, fillPieces_cons, List.append_assoc, List.append_assoc, ← ih h.2]
    cases p with
    | text s => exact Replace_no_head _ _ _ _ suffixToken_isToken (textOk_spec s h.1).2
    | suffixTok => exact Replace_match _ _ _ suffixToken_isToken
    | prefixTok => exact Replace_suffix_over_prefixToken _ _

/-- The second pass on the result of the suffix pass fills the remaining tokens of the
pieces and goes on behind them. -/
theorem Replace_prefix_pieces (sfx pfx : GoString) (ps : List Piece) (r : GoString)
    (h : ps.all Piece.textOk = true) (hs : '{' ∉ sfx) :
    Replace (fillPieces sfx prefixToken ps ++ r) prefixToken pfx
      = fillPieces sfx pfx ps ++ Replace r prefixToken pfx := by
  induction ps with
  | nil => rfl
  | cons p ps ih =>
    rw [List.all_cons, Bool.and_eq_true] at h
    rw [fillPieces_cons, fillPieces_cons, List.append_assoc, List.append_assoc, ← ih h.2]
    cases p with
    | text s => exact Replace_no_head _ _ _ _ prefixToken_isToken (textOk_spec s h.1).2
    | suffixTok => exact Replace_no_head _ _ _ _ prefixToken_isToken hs
    | prefixTok => exact Replace_match _ _ _ prefixToken_isToken

theorem assemble_no_verb (ps : List Piece) (h : ps.all Piece.textOk = true) :
    '%' ∉ assemble ps := by
  induction ps with
  | nil => simp [assemble]
  | cons p ps ih =>
    rw [List.all_cons, Bool.and_eq_true] at h
    rw [assemble_cons]
    intro hc
    rcases List.mem_append.mp hc with hc | hc
    · cases p with
      | text s => exact (textOk_spec s h.1).1 hc
      | suffixTok => revert hc; decide
      | prefixTok => revert hc; decide
    · exact ih h.2 hc

theorem fillPieces_no_open (sfx pfx : GoString) (ps : List Piece)
    (h : ps.all Piece.textOk = true) (hs : '{' ∉ sfx) (hp : '{' ∉ pfx) :
    '{' ∉ fillPieces sfx pfx ps := by
  induction ps with
  | nil => simp [fillPieces]
  | cons p ps ih =>
    rw [List.all_cons, Bool.and_eq_true] at h
    rw [fillPieces_cons]
    intro hc
    rcases List.mem_append.mp hc with hc | hc
    · cases p with
      | text s => exact (textOk_spec s h.1).2 hc
      | suffixTok => exact hs hc
      | prefixTok => exact hp hc
    · exact ih h.2 hc

/-- C18, as the claim words it, fails: on the stubbed logger, whose decorator texts
contain no token, the one-slot template `{{pre{{prefix}}fix}}%s` renders the token-free
payload `x` as `{{prefix}}x`, in which a token survives. -/
theorem Format_no_token_left_counterexample :
    selectTemplate splicedLogger.formatter Warn
        = "\x7b\x7bpre\x7b\x7bprefix\x7d\x7dfix\x7d\x7d".toList ++ "%s".toList ++ []
    ∧ '%' ∉ "\x7b\x7bpre\x7b\x7bprefix\x7d\x7dfix\x7d\x7d".toList
    ∧ ¬ suffixToken <:+: "x".toList ∧ ¬ prefixToken <:+: "x".toList
    ∧ ¬ suffixToken <:+: splicedLogger.SuffixFunc clock0
    ∧ ¬ prefixToken <:+: splicedLogger.SuffixFunc clock0
    ∧ ¬ suffixToken <:+: splicedLogger.PrefixFunc clock0
    ∧ ¬ prefixToken <:+: splicedLogger.PrefixFunc clock0
    ∧ Logger.Format noExt splicedLogger clock0 Warn [GoValue.str "x".toList]
        = "\x7b\x7bprefix\x7d\x7dx".toList
    ∧ prefixToken <:+: Logger.Format noExt splicedLogger clock0 Warn [GoValue.str "x".toList] := by
  decide

/-- C18, amended: when the template selected for the level consists of text without `%`
and `{`, decorator tokens and exactly one `%s` slot, the payload contains no `{` and the
two decorator texts contain no `{`, `Format` returns the template with the payload in the
slot and every token replaced by its decorator's text; that line contains no `{`, hence
no `{{prefix}}` and no `{{suffix}}`. -/
theorem Format_no_token_left (ext : FmtExt) (log : Logger) (now : Time) (level : Level)
    (ps1 ps2 : List Piece) (P : GoString)
    (hT : selectTemplate log.formatter level = assemble ps1 ++ "%s".toList ++ assemble ps2)
    (h1 : ps1.all Piece.textOk = true) (h2 : ps2.all Piece.textOk = true)
    (hP : '{' ∉ P) (hs : '{' ∉ log.SuffixFunc now) (hp : '{' ∉ log.PrefixFunc now) :
    Logger.Format ext log now level [GoValue.str P]
        = fillPieces (log.SuffixFunc now) (log.PrefixFunc now) ps1 ++ P
          ++ fillPieces (log.SuffixFunc now) (log.PrefixFunc now) ps2
    ∧ '{' ∉ Logger.Format ext log now level [GoValue.str P]
    ∧ ¬ suffixToken <:+: Logger.Format ext log now level [GoValue.str P]
    ∧ ¬ prefixToken <:+: Logger.Format ext log now level [GoValue.str P] := by
  have hts := suffixToken_isToken
  have htp := prefixToken_isToken
  have hline : Logger.Format ext log now level [GoValue.str P]
      = fillPieces (log.SuffixFunc now) (log.PrefixFunc now) ps1 ++ P
        ++ fillPieces (log.SuffixFunc now) (log.PrefixFunc now) ps2 := by
    rw [Format_slot ext log now level _ _ P hT (assemble_no_verb ps1 h1)
      (assemble_no_verb ps2 h2)]
    have e : assemble ps1 ++ P ++ assemble ps2 = assemble ps1 ++ (P ++ (assemble ps2 ++ [])) := by
      simp
    rw [e, Replace_suffix_pieces _ ps1 _ h1, Replace_no_head _ _ P _ hts hP,
      Replace_suffix_pieces _ ps2 _ h2, Replace_nil _ _ hts,
      Replace_prefix_pieces _ _ ps1 _ h1 hs, Replace_no_head _ _ P _ htp hP,
      Replace_prefix_pieces _ _ ps2 _ h2 hs, Replace_nil _ _ htp]
    simp
  have hopen : '{' ∉ Logger.Format ext log now level [GoValue.str P] := by
    rw [hline]
    intro hc
    simp only [List.mem_append] at hc
    rcases hc with (hc | hc) | hc
    · exact fillPieces_no_open _ _ ps1 h1 hs hp hc
    · exact hP hc
    · exact fillPieces_no_open _ _ ps2 h2 hs hp hc
  exact ⟨hline, hopen, token_absent _ _ hts hopen, token_absent _ _ htp hopen⟩

/-- An instance of the amended C18: the bracket template, made of the pieces `<<`,
`{{prefix}}`, `|`, the slot, `|`, `{{suffix}}`, `>>`, renders `<<P|m|S>>`, which contains
no token. -/
theorem Format_no_token_left_witness :
    Logger.Format noExt bracketLogger clock0 Warn [GoValue.str "m".toList] = "<<P|m|S>>".toList
    ∧ ¬ suffixToken <:+: Logger.Format noExt bracketLogger clock0 Warn [GoValue.str "m".toList]
    ∧ ¬ prefixToken <:+: Logger.Format noExt bracketLogger clock0 Warn [GoValue.str "m".toList]
    :=
  ⟨((Format_no_token_left noExt bracketLogger clock0 Warn
      [Piece.text "<<".toList, Piece.prefixTok, Piece.text "|".toList]
      [Piece.text "|".toList, Piece.suffixTok, Piece.text ">>".toList] "m".toList
      (by decide) (by decide) (by decide) (by decide) (by decide) (by decide)).1).trans
      (by decide),
   (Format_no_token_left noExt bracketLogger clock0 Warn
      [Piece.text "<<".toList, Piece.prefixTok, Piece.text "|".toList]
      [Piece.text "|".toList, Piece.suffixTok, Piece.text ">>".toList] "m".toList
      (by decide) (by decide) (by decide) (by decide) (by decide) (by decide)).2.2⟩

/-! ## Decorator texts that contain tokens -/

theorem noOpen_spec (s : GoString) (h : Piece.noOpen (Piece.text s) = true) : '{' ∉ s := by
  unfold Piece.noOpen at h
  rw [List.all_eq_true] at h
  intro hc
  have := h _ hc
  simp at this

theorem textOk_noOpen (ps : List Piece) (h : ps.all Piece.textOk = true) :
    ps.all Piece.noOpen = true := by
  rw [List.all_eq_true] at h ⊢
  intro p hp
  have := h p hp
  cases p with
  | text s =>
    unfold Piece.noOpen
    rw [List.all_eq_true]
    intro c hc
    have hne : c ≠ '{' := fun e => (textOk_spec s this).2 (e ▸ hc)
    simpa using hne
  | suffixTok => rfl
  | prefixTok => rfl

/-- The second pass steps over a `{{suffix}}` token. -/
theorem Replace_prefix_over_suffixToken (new r : GoString) :
    Replace (suffixToken ++ r) prefixToken new = suffixToken ++ Replace r prefixToken new := by
  rw [Replace_token _ _ _ prefixToken_isToken, Replace_token _ _ _ prefixToken_isToken]
  simp [replaceLoop, suffixToken, prefixToken, List.isPrefixOf]

/-- The second pass on text made of pieces replaces its `{{prefix}}` tokens, keeps its
`{{suffix}}` tokens and goes on behind it. -/
theorem Replace_prefix_source (pfx : GoString) (qs : List Piece) (r : GoString)
    (hq : qs.all Piece.noOpen = true) :
    Replace (assemble qs ++ r) prefixToken pfx
      = fillPieces suffixToken pfx qs ++ Replace r prefixToken pfx := by
  induction qs with
  | nil => rfl
  | cons p qs ih =>
    rw [List.all_cons, Bool.and_eq_true] at hq
    rw [assemble_cons, fillPieces_cons, List.append_assoc, List.append_assoc, ← ih hq.2]
    cases p with
    | text s => exact Replace_no_head _ _ _ _ prefixToken_isToken (noOpen_spec s hq.1)
    | suffixTok => exact Replace_prefix_over_suffixToken _ _
    | prefixTok => exact Replace_match _ _ _ prefixToken_isToken

/-- The second pass on the result of the first, when the suffix text is itself made of
pieces: inside each copy of the suffix text as on that text alone, elsewhere filling the
`{{prefix}}` tokens. -/
theorem Replace_prefix_filled (pfx : GoString) (qs ps : List Piece) (r : GoString)
    (hp : ps.all Piece.noOpen = true) (hq : qs.all Piece.noOpen = true) :
    Replace (fillPieces (assemble qs) prefixToken ps ++ r) prefixToken pfx
      = fillPieces (fillPieces suffixToken pfx qs) pfx ps ++ Replace r prefixToken pfx := by
  induction ps with
  | nil => rfl
  | cons p ps ih =>
    rw [List.all_cons, Bool.and_eq_true] at hp
    rw [fillPieces_cons, fillPieces_cons, List.append_assoc, List.append_assoc, ← ih hp.2]
    cases p with
    | text s => exact Replace_no_head _ _ _ _ prefixToken_isToken (noOpen_spec s hp.1)
    | suffixTok => exact Replace_prefix_source pfx qs _ hq
    | prefixTok => exact Replace_match _ _ _ prefixToken_isToken

/-- The line after the first pass, under a template made of pieces. -/
theorem Format_after_suffix_pass (ext : FmtExt) (log : Logger) (now : Time) (level : Level)
    (ps1 ps2 : List Piece) (P : GoString)
    (hT : selectTemplate log.formatter level = assemble ps1 ++ "%s".toList ++ assemble ps2)
    (h1 : ps1.all Piece.textOk = true) (h2 : ps2.all Piece.textOk = true) (hP : '{' ∉ P) :
    Logger.Format ext log now level [GoValue.str P]
      = Replace (fillPieces (log.SuffixFunc now) prefixToken ps1
          ++ (P ++ (fillPieces (log.SuffixFunc now) prefixToken ps2 ++ [])))
          prefixToken (log.PrefixFunc now) := by
  rw [Format_slot ext log now level _ _ P hT (assemble_no_verb ps1 h1) (assemble_no_verb ps2 h2)]
  have e : assemble ps1 ++ P ++ assemble ps2 = assemble ps1 ++ (P ++ (assemble ps2 ++ [])) := by
    simp
  rw [e, Replace_suffix_pieces _ ps1 _ h1, Replace_no_head _ _ P _ suffixToken_isToken hP,
    Replace_suffix_pieces _ ps2 _ h2, Replace_nil _ _ suffixToken_isToken]

/-- C7, amended: substitution is two passes in sequence, `{{suffix}}` first and
`{{prefix}}` second, and a pass does not look again at the text it splices in. For every
template that consists of text without `%` and `{`, decorator tokens in any number and
place and one `%s` slot, and every payload without `{`: the first pass puts the suffix
decorator's text as it is in place of each `{{suffix}}` and the second pass runs over that
line; when the suffix decorator's text is itself made of text without `{` and tokens, the
line is the template with the payload in the slot, each `{{prefix}}` replaced by the
leading decorator's text as it is, whatever tokens that contains, and each `{{suffix}}`
replaced by the suffix decorator's text in which each `{{suffix}}` stays and each
`{{prefix}}` is replaced by the leading decorator's text. For a suffix text of any form
the same holds under the templates `a%sb{{prefix}}c` and `a%sb{{suffix}}c` with plain
`a`, `b`, `c`. -/
theorem Format_decorator_text (ext : FmtExt) (log : Logger) (now : Time) (level : Level)
    (P : GoString) (hP : '{' ∉ P) :
    (∀ s : List GoValue, Logger.Format ext log now level s
        = Replace (Replace (Sprintf ext (selectTemplate log.formatter level) s)
            suffixToken (log.SuffixFunc now)) prefixToken (log.PrefixFunc now))
    ∧ (∀ ps1 ps2 : List Piece,
        selectTemplate log.formatter level = assemble ps1 ++ "%s".toList ++ assemble ps2 →
        ps1.all Piece.textOk = true → ps2.all Piece.textOk = true →
        Logger.Format ext log now level [GoValue.str P]
            = Replace (fillPieces (log.SuffixFunc now) prefixToken ps1 ++ P
                ++ fillPieces (log.SuffixFunc now) prefixToken ps2)
                prefixToken (log.PrefixFunc now)
        ∧ ∀ qs : List Piece, log.SuffixFunc now = assemble qs → qs.all Piece.noOpen = true →
            Replace (log.SuffixFunc now) prefixToken (log.PrefixFunc now)
                = fillPieces suffixToken (log.PrefixFunc now) qs
            ∧ Logger.Format ext log now level [GoValue.str P]
                = fillPieces (Replace (log.SuffixFunc now) prefixToken (log.PrefixFunc now))
                    (log.PrefixFunc now) ps1
                  ++ P
                  ++ fillPieces (Replace (log.SuffixFunc now) prefixToken (log.PrefixFunc now))
                    (log.PrefixFunc now) ps2)
    ∧ (∀ a b c : GoString, plain a = true → plain b = true → plain c = true →
        (selectTemplate log.formatter level = a ++ "%s".toList ++ (b ++ prefixToken ++ c) →
          Logger.Format ext log now level [GoValue.str P]
            = a ++ P ++ b ++ log.PrefixFunc now ++ c)
        ∧ (selectTemplate log.formatter level = a ++ "%s".toList ++ (b ++ suffixToken ++ c) →
          Logger.Format ext log now level [GoValue.str P]
              = a ++ P ++ b ++ Replace (log.SuffixFunc now) prefixToken (log.PrefixFunc now)
                ++ c
          ∧ (¬ prefixToken <:+: log.SuffixFunc now →
              Logger.Format ext log now level [GoValue.str P]
                = a ++ P ++ b ++ log.SuffixFunc now ++ c))) := by
  refine ⟨Format_eq_render ext log now level, ?_,
    fun a b c ha hb hc => Format_decorator_shapes ext log now level a b c P ha hb hc hP⟩
  intro ps1 ps2 hT h1 h2
  have hpass := Format_after_suffix_pass ext log now level ps1 ps2 P hT h1 h2 hP
  refine ⟨?_, ?_⟩
  · rw [hpass]
    simp
  · intro qs hs hq
    have hsfx : Replace (log.SuffixFunc now) prefixToken (log.PrefixFunc now)
        = fillPieces suffixToken (log.PrefixFunc now) qs := by
      have := Replace_prefix_source (log.PrefixFunc now) qs [] hq
      rw [List.append_nil, Replace_nil _ _ prefixToken_isToken, List.append_nil] at this
      rw [hs, this]
    refine ⟨hsfx, ?_⟩
    rw [hpass, hsfx, hs,
      Replace_prefix_filled _ qs ps1 _ (textOk_noOpen ps1 h1) hq,
      Replace_no_head _ _ P _ prefixToken_isToken hP,
      Replace_prefix_filled _ qs ps2 _ (textOk_noOpen ps2 h2) hq,
      Replace_nil _ _ prefixToken_isToken]
    simp

/-- Instances of the amended C7. Under the bracket template
`<<{{prefix}}|%s|{{suffix}}>>`, with a token before and a token after the slot, the
leading decorator returns `{{suffix}}{{prefix}}` and is spliced in as it is, and the
suffix decorator returns `{{prefix}}|{{suffix}}` and has only its `{{prefix}}` replaced;
under `<%s|{{prefix}}>` the leading text is again spliced in as it is; under
`%s{{suffix}}` a suffix decorator that returns `{{prefix}}` has it replaced by `P`. -/
theorem Format_decorator_text_witness :
    Logger.Format noExt mirrorLogger clock0 Warn [GoValue.str "m".toList]
        = "<<\x7b\x7bsuffix\x7d\x7d\x7b\x7bprefix\x7d\x7d|m|\x7b\x7bsuffix\x7d\x7d\x7b\x7bprefix\x7d\x7d|\x7b\x7bsuffix\x7d\x7d>>".toList
    ∧ Logger.Format noExt echoLogger clock0 Warn [GoValue.str "m".toList]
        = "<m|\x7b\x7bsuffix\x7d\x7d\x7b\x7bprefix\x7d\x7d>".toList
    ∧ Logger.Format noExt nestedLogger clock0 Warn [GoValue.str "m".toList] = "mP".toList :=
  ⟨(((Format_decorator_text noExt mirrorLogger clock0 Warn "m".toList (by decide)).2.1
      [Piece.text "<<".toList, Piece.prefixTok, Piece.text "|".toList]
      [Piece.text "|".toList, Piece.suffixTok, Piece.text ">>".toList]
      (by decide) (by decide) (by decide)).2
      [Piece.prefixTok, Piece.text "|".toList, Piece.suffixTok] (by decide) (by decide)).2.trans
      (by decide),
   (((Format_decorator_text noExt echoLogger clock0 Warn "m".toList (by decide)).2.1
      [Piece.text "<".toList] [Piece.text "|".toList, Piece.prefixTok, Piece.text ">".toList]
      (by decide) (by decide) (by decide)).2
      [Piece.prefixTok] (by decide) (by decide)).2.trans (by decide),
   (((Format_decorator_text noExt nestedLogger clock0 Warn "m".toList (by decide)).2.1
      [] [Piece.suffixTok] (by decide) (by decide) (by decide)).2
      [Piece.prefixTok] (by decide) (by decide)).2.trans (by decide)⟩

end Logs
